import Mathlib

/-!
Verification of the protocol engine of `factorio-rcon-py`.

The definitions below are a shallow embedding of the final client variant
`src/factorio_rcon/_factorio_rcon.py` (the variant exported by
`src/factorio_rcon/__init__.py`).  Bytes are modelled as `Nat`, Python `bytes`
as `List Nat`, Python `str` as Lean `String` (a sequence of Unicode scalar
values), Python dictionaries as association lists with Python's
insert-or-overwrite update, Python exceptions as an explicit `Except` error
channel, and the mutable client object as an explicit state record that every
operation threads.  The TCP socket is modelled as a script: the bytes the peer
sends before closing, plus a verdict for each `sendall` call.
-/

namespace FactorioRcon

deriving instance DecidableEq for Except

/-! ## UTF-8 codec

Models Python's `str.encode("utf-8")` and `bytes.decode("utf-8")` (strict
mode).  Encoding maps each Unicode scalar value to 1-4 bytes; decoding
rejects continuation-byte misuse, overlong forms, surrogates and
out-of-range code points, exactly as CPython's strict UTF-8 codec does. -/

/-- UTF-8 encoding of a single Unicode scalar value (as `Nat`). -/
def utf8EncodeChar (c : Nat) : List Nat :=
  if c < 0x80 then [c]
  else if c < 0x800 then [0xC0 + c / 64, 0x80 + c % 64]
  else if c < 0x10000 then
    [0xE0 + c / 4096, 0x80 + (c / 64) % 64, 0x80 + c % 64]
  else
    [0xF0 + c / 0x40000, 0x80 + (c / 4096) % 64, 0x80 + (c / 64) % 64,
      0x80 + c % 64]

/-- UTF-8 encoding of a list of scalar values. -/
def utf8EncodeList : List Char → List Nat
  | [] => []
  | c :: t => utf8EncodeChar c.toNat ++ utf8EncodeList t

/-- `str.encode("utf-8")`: the UTF-8 bytes of a string. -/
def utf8Encode (s : String) : List Nat :=
  utf8EncodeList s.data

/-- Is `b` a UTF-8 continuation byte? -/
def isCont (b : Nat) : Bool := 0x80 ≤ b && b < 0xC0

/-- Decode one UTF-8 scalar value: lead byte `b`, following bytes `rest`.
Returns the code point and the unconsumed remainder, or `none` on a
malformed sequence (continuation misuse, overlong form, surrogate,
out-of-range code point, truncated sequence). -/
def utf8DecodeOne (b : Nat) (rest : List Nat) : Option (Nat × List Nat) :=
  if b < 0x80 then some (b, rest)
  else if b < 0xC2 then none
  else if b < 0xE0 then
    match rest with
    | b1 :: r =>
      if isCont b1 then some ((b - 0xC0) * 64 + (b1 - 0x80), r) else none
    | [] => none
  else if b < 0xF0 then
    match rest with
    | b1 :: b2 :: r =>
      if isCont b1 && isCont b2 then
        let cp := (b - 0xE0) * 4096 + (b1 - 0x80) * 64 + (b2 - 0x80)
        if 0x800 ≤ cp && (cp < 0xD800 || 0xDFFF < cp) then some (cp, r)
        else none
      else none
    | _ => none
  else if b < 0xF5 then
    match rest with
    | b1 :: b2 :: b3 :: r =>
      if isCont b1 && isCont b2 && isCont b3 then
        let cp := (b - 0xF0) * 0x40000 + (b1 - 0x80) * 4096 +
          (b2 - 0x80) * 64 + (b3 - 0x80)
        if 0x10000 ≤ cp && cp < 0x110000 then some (cp, r) else none
      else none
    | _ => none
  else none

/-- Strict UTF-8 decoding of a byte list into scalar values.  The fuel is
only a termination device: one unit is spent per decoded scalar, and each
scalar consumes at least one byte, so any fuel at least the byte count gives
the behaviour of CPython's decoder. -/
def utf8DecodeLoop : Nat → List Nat → Option (List Nat)
  | _, [] => some []
  | 0, _ :: _ => none
  | fuel + 1, b :: rest =>
    match utf8DecodeOne b rest with
    | some (cp, r) => (utf8DecodeLoop fuel r).map (cp :: ·)
    | none => none

/-- `bytes.decode("utf-8")` at the level of scalar values:
`none` models `UnicodeDecodeError`. -/
def utf8DecodeCp (l : List Nat) : Option (List Nat) :=
  utf8DecodeLoop l.length l

/-- Rebuild a `Char` from a scalar value produced by `utf8DecodeCp`. -/
def charOfCp (cp : Nat) : Char := Char.ofNat cp

/-- `bytes.decode("utf-8")`: strict UTF-8 decoding to a string. -/
def utf8DecodeStr (l : List Nat) : Option String :=
  (utf8DecodeCp l).map (fun cps => ⟨cps.map charOfCp⟩)

theorem utf8EncodeList_append (l1 l2 : List Char) :
    utf8EncodeList (l1 ++ l2) = utf8EncodeList l1 ++ utf8EncodeList l2 := by
  induction l1 with
  | nil => simp [utf8EncodeList]
  | cons c t ih => simp [utf8EncodeList, ih]

theorem utf8EncodeChar_length_pos (c : Nat) : 0 < (utf8EncodeChar c).length := by
  unfold utf8EncodeChar
  by_cases h1 : c < 0x80 <;> by_cases h2 : c < 0x800 <;>
    by_cases h3 : c < 0x10000 <;> simp [h1, h2, h3]

/-- Decoding inverts encoding for one valid scalar value, leaving the
remaining bytes untouched. -/
theorem utf8DecodeLoop_encodeChar (cp : Nat) (h1 : cp < 0x110000)
    (h2 : cp < 0xD800 ∨ 0xDFFF < cp) (l : List Nat) (fuel : Nat) :
    utf8DecodeLoop (fuel + 1) (utf8EncodeChar cp ++ l) =
      (utf8DecodeLoop fuel l).map (cp :: ·) := by
  unfold utf8EncodeChar
  by_cases ha : cp < 0x80
  · simp only [if_pos ha, List.cons_append, List.nil_append, utf8DecodeLoop]
    rw [utf8DecodeOne.eq_def]
    simp [ha]
  · by_cases hb : cp < 0x800
    · simp only [if_neg ha, if_pos hb, List.cons_append, List.nil_append,
        utf8DecodeLoop]
      rw [utf8DecodeOne.eq_def]
      have c1 : ¬ (0xC0 + cp / 64 < 0x80) := by omega
      have c2 : ¬ (0xC0 + cp / 64 < 0xC2) := by omega
      have c3 : 0xC0 + cp / 64 < 0xE0 := by omega
      have c4 : isCont (0x80 + cp % 64) = true := by simp [isCont]; omega
      have e1 : (0xC0 + cp / 64 - 0xC0) * 64 + (0x80 + cp % 64 - 0x80)
          = cp := by omega
      simp only [if_neg c1, if_neg c2, if_pos c3, c4, if_pos, e1]
    · by_cases hc : cp < 0x10000
      · simp only [if_neg ha, if_neg hb, if_pos hc, List.cons_append,
          List.nil_append, utf8DecodeLoop]
        rw [utf8DecodeOne.eq_def]
        have c1 : ¬ (0xE0 + cp / 4096 < 0x80) := by omega
        have c2 : ¬ (0xE0 + cp / 4096 < 0xC2) := by omega
        have c3 : ¬ (0xE0 + cp / 4096 < 0xE0) := by omega
        have c4 : 0xE0 + cp / 4096 < 0xF0 := by omega
        have c5 : isCont (0x80 + (cp / 64) % 64) = true := by
          simp [isCont]; omega
        have c6 : isCont (0x80 + cp % 64) = true := by simp [isCont]; omega
        have e1 : (0xE0 + cp / 4096 - 0xE0) * 4096 +
            (0x80 + (cp / 64) % 64 - 0x80) * 64 + (0x80 + cp % 64 - 0x80)
              = cp := by omega
        have c7 : (0x800 ≤ cp && (decide (cp < 0xD800) ||
            decide (0xDFFF < cp))) = true := by
          simp; omega
        simp only [if_neg c1, if_neg c2, if_neg c3, if_pos c4, c5, c6,
          Bool.and_self, if_pos, e1, c7, if_true]
      · simp only [if_neg ha, if_neg hb, if_neg hc, List.cons_append,
          List.nil_append, utf8DecodeLoop]
        rw [utf8DecodeOne.eq_def]
        have c1 : ¬ (0xF0 + cp / 0x40000 < 0x80) := by omega
        have c2 : ¬ (0xF0 + cp / 0x40000 < 0xC2) := by omega
        have c3 : ¬ (0xF0 + cp / 0x40000 < 0xE0) := by omega
        have c4 : ¬ (0xF0 + cp / 0x40000 < 0xF0) := by omega
        have c5 : 0xF0 + cp / 0x40000 < 0xF5 := by omega
        have c6 : isCont (0x80 + (cp / 4096) % 64) = true := by
          simp [isCont]; omega
        have c7 : isCont (0x80 + (cp / 64) % 64) = true := by
          simp [isCont]; omega
        have c8 : isCont (0x80 + cp % 64) = true := by simp [isCont]; omega
        have e1 : (0xF0 + cp / 0x40000 - 0xF0) * 0x40000 +
            (0x80 + (cp / 4096) % 64 - 0x80) * 4096 +
            (0x80 + (cp / 64) % 64 - 0x80) * 64 + (0x80 + cp % 64 - 0x80)
              = cp := by omega
        have c9 : (0x10000 ≤ cp && decide (cp < 0x110000)) = true := by
          simp; omega
        simp only [if_neg c1, if_neg c2, if_neg c3, if_neg c4, if_pos c5,
          c6, c7, c8, Bool.and_self, if_pos, e1, c9, if_true]

/-- Facts about `Char`: every Lean character is a Unicode scalar value. -/
theorem char_toNat_lt (c : Char) : c.toNat < 0x110000 := by
  rcases c.valid with h | ⟨h1, h2⟩
  · have : c.val.toNat < 0xd800 := h
    simp [Char.toNat]; omega
  · have : c.val.toNat < 0x110000 := h2
    simp [Char.toNat]; omega

theorem char_toNat_not_surr (c : Char) : c.toNat < 0xD800 ∨ 0xDFFF < c.toNat := by
  rcases c.valid with h | ⟨h1, h2⟩
  · have : c.val.toNat < 0xd800 := h
    left; simp [Char.toNat]; omega
  · have : 0xdfff < c.val.toNat := h1
    right; simp [Char.toNat]; omega

/-- Decoding inverts encoding on whole character lists. -/
theorem utf8DecodeLoop_encodeList (cs : List Char) (fuel : Nat)
    (hf : cs.length ≤ fuel) :
    utf8DecodeLoop fuel (utf8EncodeList cs) = some (cs.map Char.toNat) := by
  induction cs generalizing fuel with
  | nil => cases fuel <;> simp [utf8EncodeList, utf8DecodeLoop]
  | cons c t ih =>
    match fuel with
    | f + 1 =>
      rw [utf8EncodeList, utf8DecodeLoop_encodeChar c.toNat (char_toNat_lt c)
        (char_toNat_not_surr c)]
      rw [ih f (by simpa using Nat.lt_succ_iff.mp (Nat.lt_of_lt_of_le
        (Nat.lt_succ_self _) (by simpa using hf)))]
      simp

/-- The byte length of an encoded list bounds the character count, so
`utf8DecodeCp`'s fuel is sufficient. -/
theorem length_le_utf8EncodeList_length (cs : List Char) :
    cs.length ≤ (utf8EncodeList cs).length := by
  induction cs with
  | nil => simp [utf8EncodeList]
  | cons c t ih =>
    rw [utf8EncodeList]
    have := utf8EncodeChar_length_pos c.toNat
    simp only [List.length_append, List.length_cons]
    omega

theorem utf8DecodeCp_encode (cs : List Char) :
    utf8DecodeCp (utf8EncodeList cs) = some (cs.map Char.toNat) :=
  utf8DecodeLoop_encodeList cs _ (length_le_utf8EncodeList_length cs)

/-- Full string-level UTF-8 round trip, matching
`b.decode("utf-8")` after `s.encode("utf-8")`. -/
theorem utf8DecodeStr_encode (s : String) :
    utf8DecodeStr (utf8Encode s) = some s := by
  unfold utf8DecodeStr utf8Encode
  rw [utf8DecodeCp_encode]
  have : (s.data.map Char.toNat).map charOfCp = s.data := by
    induction s.data with
    | nil => simp
    | cons c t ih =>
      simp only [List.map_cons, List.cons.injEq]
      exact ⟨Char.ofNat_toNat c, ih⟩
  simp [this]

/-! ## Little-endian 32-bit integers

Models `struct.pack`/`struct.unpack` with format character `i`
(little-endian signed 32-bit) and `int.from_bytes(data, "little")`. -/

/-- The four little-endian bytes of `v % 2^32`. -/
def le4 (v : Nat) : List Nat :=
  [v % 256, v / 256 % 256, v / 65536 % 256, v / 16777216 % 256]

/-- `int.from_bytes(data, "little")`: unsigned little-endian value. -/
def fromLE : List Nat → Nat
  | [] => 0
  | b :: t => b % 256 + 256 * fromLE t

/-- Reinterpret an unsigned 32-bit value as signed (two's complement),
as `struct.unpack("<i", ...)` does. -/
def toSigned32 (v : Nat) : Int :=
  if v < 2 ^ 31 then (v : Int) else (v : Int) - 2 ^ 32

/-- `struct.pack("<i", x)`: the four little-endian bytes of a signed
32-bit integer.  Caller must separately check the `struct.error` range. -/
def packInt32 (x : Int) : List Nat :=
  le4 (x % 2 ^ 32).toNat

/-- The `struct.pack`/`struct.unpack` range check for format `i`. -/
def int32Ok (x : Int) : Bool :=
  -(2 ^ 31) ≤ x && x < 2 ^ 31

/-- `struct.unpack("<i", ...)` of four bytes. -/
def unpackInt32 (l : List Nat) : Int :=
  toSigned32 (fromLE l)

theorem le4_length (v : Nat) : (le4 v).length = 4 := rfl

theorem fromLE_le4 (v : Nat) (h : v < 2 ^ 32) : fromLE (le4 v) = v := by
  simp only [le4, fromLE]
  omega

theorem unpackInt32_packInt32 (x : Int) (h : int32Ok x = true) :
    unpackInt32 (packInt32 x) = x := by
  simp only [int32Ok, Bool.and_eq_true, decide_eq_true_eq] at h
  obtain ⟨h1, h2⟩ := h
  have hp32 : (2 : Int) ^ 32 = 4294967296 := by norm_num
  unfold unpackInt32 packInt32
  by_cases hx : 0 ≤ x
  · have he : x % 2 ^ 32 = x := by rw [hp32]; omega
    rw [he]
    have hlt : x.toNat < 2 ^ 32 := by omega
    rw [fromLE_le4 _ hlt]
    unfold toSigned32
    rw [if_pos (by omega)]
    omega
  · have he : x % 2 ^ 32 = x + 4294967296 := by rw [hp32]; omega
    rw [he]
    have hlt : (x + 4294967296).toNat < 2 ^ 32 := by omega
    rw [fromLE_le4 _ hlt]
    unfold toSigned32
    rw [if_neg (by omega)]
    rw [hp32]
    omega

/-! ## Messages, exceptions and message constants

From `src/factorio_rcon/_factorio_rcon.py`: the `RCONMessage` named tuple,
the exception hierarchy, and the module-level message strings. -/

/-- `RCONMessage`: id, type and optional body.  `type` is kept as a raw
integer, which is how `parse_message` returns it; the `PacketType` values
are `RESPONSE_VALUE = 0`, `EXECCOMMAND = AUTH_RESPONSE = 2`, `AUTH = 3`. -/
structure RCONMessage where
  id : Int
  type : Int
  body : Option String
deriving DecidableEq

/-- `PacketType.RESPONSE_VALUE` -/
def RESPONSE_VALUE : Int := 0
/-- `PacketType.EXECCOMMAND` -/
def EXECCOMMAND : Int := 2
/-- `PacketType.AUTH_RESPONSE` -/
def AUTH_RESPONSE : Int := 2
/-- `PacketType.AUTH` -/
def AUTH : Int := 3

/-- The Python exceptions that the embedded code can raise.  The library's
own hierarchy (everything below `RCONBaseError`) carries its message
string; `structError` and `unicodeError` model `struct.error` and
`UnicodeError`, which are not part of the library hierarchy. -/
inductive PyExc where
  | invalidPassword (msg : String)
  | invalidResponse (msg : String)
  | rconNotConnected (msg : String)
  | rconClosed (msg : String)
  | rconConnectError (msg : String)
  | rconSendError (msg : String)
  | rconReceiveError (msg : String)
  | structError
  | unicodeError
  | keyError
deriving DecidableEq

/-- Does the exception inherit from `RCONBaseError`? -/
def PyExc.isRCONBaseError : PyExc → Bool
  | .structError => false
  | .unicodeError => false
  | .keyError => false
  | _ => true

def INVALID_PASS : String := "The RCON password is incorrect"

def INVALID_ID : String :=
  "The RCON server returned a response with an unknown sequence ID. This means that "
  ++ "a response was received for a command that was not sent. This situation implies "
  ++ "a bug in this RCON library or the RCON server behaving incorrectly. "
  ++ "If this behaviour is intentional, you can use receive_packet()."

def INVALID_TYPE : String :=
  "The RCON server returned a response of unexpected or unknown type. This situation implies "
  ++ "a bug in this RCON library or the RCON server behaving incorrectly. "
  ++ "If this behaviour is intentional, you can use receive_packet()."

def PARSE_FAILED : String :=
  "The RCON server returned data that could not be parsed into response messages"

def NOT_CONNECTED : String :=
  "The RCON client is currently not connected to the server"

def RCON_FAILED : String :=
  "An error has occurred and the client is no longer connected to the RCON server "
  ++ "(reconnect with connect())"

def CONN_CLOSED : String := "The RCON server closed the connection"

def CONN_TIMEOUT : String :=
  "The connection timed out while communicating with the server"

def CONNECT_SOCKET_ERROR : String :=
  "Failed to establish a connection to the server"

def CONNECT_COMMUNICATION_ERROR : String :=
  "Failed to communicate authentication setup to the server"

def SEND_ERROR : String := "Failed to send data to the RCON server"

def RECEIVE_ERROR : String := "Failed to receive data from the RCON server"

/-! ## Wire codec

`RCONSharedBase.build_message` and `RCONSharedBase.parse_message`.  The
format string is `"<iii{0}sH"` with `fixed_length = 10`: a little-endian
int32 length prefix, int32 id, int32 type, the body bytes, and an unsigned
16-bit field holding the two terminating NUL bytes. -/

/-- `fixed_length = 10`: two int32s plus the two terminating null bytes. -/
def fixed_length : Nat := 10

/-- `struct.pack(cls.message_format.format(len(encoded_body)), length,
id, type, encoded_body, 0)`.  `struct.error` (modelled as the `Except`
error) is raised when an int32 argument is out of range; the `{n}s` field
is packed exactly (its length equals `n` here) and the final `H` field is
the constant `0`, i.e. the bytes `[0, 0]`. -/
def structPackMessage (length : Nat) (id type : Int) (body : List Nat) :
    Except PyExc (List Nat) :=
  if int32Ok (length : Int) && int32Ok id && int32Ok type then
    .ok (le4 length ++ packInt32 id ++ packInt32 type ++ body ++ [0, 0])
  else
    .error .structError

/-- `RCONSharedBase.build_message`: encode a message into bytes. -/
def build_message (message : RCONMessage) : Except PyExc (List Nat) :=
  let encoded_body := match message.body with
    | some s => utf8Encode s
    | none => []
  structPackMessage (fixed_length + encoded_body.length) message.id
    message.type encoded_body

/-- `struct.unpack(cls.message_format.format(length - cls.fixed_length),
message)`.  Fails with `struct.error` when `length - fixed_length` is
negative (a malformed format string) or when the byte count does not match
the format's size `4 + 4 + 4 + (length - 10) + 2 = length + 4`.  Returns
the unpacked id, type and body bytes (the length field and the trailing
`H` field are unpacked too but unused by `parse_message`). -/
def structUnpackMessage (message : List Nat) (length : Nat) :
    Except PyExc (Int × Int × List Nat) :=
  if length < fixed_length then .error .structError
  else if message.length = length + 4 then
    .ok (unpackInt32 ((message.drop 4).take 4),
      unpackInt32 ((message.drop 8).take 4),
      (message.drop 12).take (length - fixed_length))
  else .error .structError

/-- `RCONSharedBase.parse_message`: parse bytes into an `RCONMessage`.
`struct.error` and `UnicodeError` are both caught and re-raised as
`InvalidResponse(PARSE_FAILED)`; an empty body byte string yields a `None`
body. -/
def parse_message (message : List Nat) (length : Nat) :
    Except PyExc RCONMessage :=
  match structUnpackMessage message length with
  | .error _ => .error (.invalidResponse PARSE_FAILED)
  | .ok (id, type, bodyBytes) =>
    if bodyBytes.isEmpty then .ok ⟨id, type, none⟩
    else
      match utf8DecodeStr bodyBytes with
      | some s => .ok ⟨id, type, some s⟩
      | none => .error (.invalidResponse PARSE_FAILED)

/-- The `encoded_body` local of `build_message`. -/
def encodedBodyBytes : Option String → List Nat
  | some s => utf8Encode s
  | none => []

/-- What decoding does to an encoded body: an empty byte string comes back
as an absent body, anything else as the original string. -/
def normalizeBody : Option String → Option String
  | some s => if s = "" then none else some s
  | none => none

theorem build_message_eq (m : RCONMessage) :
    build_message m = structPackMessage
      (fixed_length + (encodedBodyBytes m.body).length) m.id m.type
      (encodedBodyBytes m.body) := by
  unfold build_message encodedBodyBytes
  cases m.body <;> rfl

theorem utf8Encode_ne_nil (s : String) (h : s ≠ "") : utf8Encode s ≠ [] := by
  unfold utf8Encode
  cases hd : s.data with
  | nil =>
    exact absurd (by cases s with
      | mk data => cases hd; rfl) h
  | cons c t =>
    rw [utf8EncodeList]
    intro hc
    have h1 := utf8EncodeChar_length_pos c.toNat
    rcases List.append_eq_nil.mp hc with ⟨ha, _⟩
    rw [ha] at h1
    simp at h1

theorem packInt32_length (x : Int) : (packInt32 x).length = 4 := rfl

/-- Core round-trip: a successfully encoded message, parsed back with the
encoded length prefix as the declared length, yields the original id and
type and the normalized body. -/
theorem parse_build_message (m : RCONMessage) (bts : List Nat)
    (h : build_message m = .ok bts) :
    parse_message bts (fixed_length + (encodedBodyBytes m.body).length) =
      .ok ⟨m.id, m.type, normalizeBody m.body⟩ := by
  rw [build_message_eq] at h
  unfold structPackMessage at h
  by_cases hok : (int32Ok ((fixed_length + (encodedBodyBytes m.body).length : Nat) : Int)
      && int32Ok m.id && int32Ok m.type) = true
  · rw [if_pos hok] at h
    simp only [Bool.and_eq_true] at hok
    obtain ⟨⟨hlenOk, hidOk⟩, htyOk⟩ := hok
    simp only [Except.ok.injEq] at h
    subst h
    set body := encodedBodyBytes m.body with hbody
    set L : Nat := fixed_length + body.length with hL
    have hsplit : le4 L ++ packInt32 m.id ++ packInt32 m.type ++ body ++ [0, 0]
        = le4 L ++ (packInt32 m.id ++ (packInt32 m.type ++ (body ++ [0, 0]))) := by
      simp [List.append_assoc]
    rw [hsplit]
    unfold parse_message structUnpackMessage
    rw [if_neg (by rw [hL]; unfold fixed_length; omega)]
    have hlen : (le4 L ++ (packInt32 m.id ++ (packInt32 m.type ++
        (body ++ [0, 0])))).length = L + 4 := by
      simp only [List.length_append, le4_length, packInt32_length,
        List.length_cons, List.length_nil, hL, fixed_length]
      omega
    rw [if_pos hlen]
    have hdrop4 : (le4 L ++ (packInt32 m.id ++ (packInt32 m.type ++
        (body ++ [0, 0])))).drop 4
        = packInt32 m.id ++ (packInt32 m.type ++ (body ++ [0, 0])) :=
      List.drop_left' (le4_length L)
    have hdrop8 : (le4 L ++ (packInt32 m.id ++ (packInt32 m.type ++
        (body ++ [0, 0])))).drop 8
        = packInt32 m.type ++ (body ++ [0, 0]) := by
      have : (8 : Nat) = 4 + 4 := rfl
      rw [this, ← List.drop_drop, hdrop4]
      exact List.drop_left' (packInt32_length m.id)
    have hdrop12 : (le4 L ++ (packInt32 m.id ++ (packInt32 m.type ++
        (body ++ [0, 0])))).drop 12
        = body ++ [0, 0] := by
      have : (12 : Nat) = 8 + 4 := rfl
      rw [this, ← List.drop_drop, hdrop8]
      exact List.drop_left' (packInt32_length m.type)
    rw [hdrop4, hdrop8, hdrop12]
    have htake1 : (packInt32 m.id ++ (packInt32 m.type ++ (body ++ [0, 0]))).take 4
        = packInt32 m.id := List.take_left' (packInt32_length m.id)
    have htake2 : (packInt32 m.type ++ (body ++ [0, 0])).take 4
        = packInt32 m.type := List.take_left' (packInt32_length m.type)
    have htake3 : (body ++ [0, 0]).take (L - fixed_length) = body := by
      have he : L - fixed_length = body.length := by rw [hL]; omega
      rw [he]
      exact List.take_left' rfl
    rw [htake1, htake2, htake3, unpackInt32_packInt32 m.id hidOk,
      unpackInt32_packInt32 m.type htyOk]
    simp only []
    cases hmb : m.body with
    | none =>
      have hb0 : body = [] := by rw [hbody, hmb]; rfl
      rw [hb0]
      simp [normalizeBody]
    | some s =>
      by_cases hs : s = ""
      · subst hs
        have hb0 : body = [] := by rw [hbody, hmb]; rfl
        rw [hb0]
        simp [normalizeBody]
      · have hb : body = utf8Encode s := by rw [hbody, hmb]; rfl
        have hne : body.isEmpty = false := by
          rw [hb]
          simpa using utf8Encode_ne_nil s hs
        rw [hne]
        simp only [Bool.false_eq_true, if_false]
        rw [hb, utf8DecodeStr_encode]
        simp [normalizeBody, hs]
  · rw [if_neg hok] at h
    exact absurd h (by simp)

/-! ## Client state and the socket model

`RCONClient` holds `id_seq`, `rcon_socket` and `rcon_failure`
(`RCONSharedBase.__init__`).  The TCP socket is modelled as a script: the
bytes the peer will deliver before closing the connection (`recv` returns
up to the requested amount of those; once they are exhausted it returns an
empty read, which signals the peer closed), a log of every byte written,
and a verdict for each `sendall` call (`false` makes that call raise,
modelling `socket.timeout`/`OSError`, both of which `send_packet` turns
into `RCONSendError`). -/

/-- `RECV_SIZE = 4096`. -/
def RECV_SIZE : Nat := 4096

structure Wire where
  /-- every byte successfully passed to `sendall` so far -/
  sent : List Nat
  /-- whether the n-th `sendall` call (0-based) succeeds -/
  sendVerdict : Nat → Bool
  /-- number of `sendall` calls so far -/
  sendCount : Nat
  /-- bytes the peer delivers before closing the connection -/
  incoming : List Nat

/-- The mutable state of an `RCONClient` (`RCONSharedBase.__init__`):
`id_seq = 0`, `rcon_socket = None`, `rcon_failure = False`; the socket
slot holds a `Wire` when connected. -/
structure ClientState where
  id_seq : Nat
  rcon_socket : Option Wire
  rcon_failure : Bool

/-- Replace the client's socket. -/
def setWire (s : ClientState) (w : Wire) : ClientState :=
  { s with rcon_socket := some w }

/-- `RCONSharedBase.get_id`: wrap to 0 at signed-int32 max, else increment;
returns the new value of `id_seq`. -/
def get_id (s : ClientState) : ClientState × Nat :=
  if s.id_seq = 2 ^ 31 - 1 then ({ s with id_seq := 0 }, 0)
  else ({ s with id_seq := s.id_seq + 1 }, s.id_seq + 1)

/-- `RCONClient.close`: release the socket; always succeeds. -/
def close (s : ClientState) : ClientState :=
  { s with rcon_socket := none }

/-- The `handle_socket_errors` decorator: with `alive_socket_required`,
reject when not connected or after a failure; run the body; on any
exception set `rcon_failure`, `close()` and re-raise.  (The async client's
`async_handle_socket_errors` has identical logic.) -/
def guarded (aliveRequired : Bool)
    (f : ClientState → ClientState × Except PyExc α) (s : ClientState) :
    ClientState × Except PyExc α :=
  if aliveRequired && s.rcon_socket.isNone then
    (s, .error (.rconNotConnected NOT_CONNECTED))
  else if aliveRequired && s.rcon_failure then
    (s, .error (.rconNotConnected RCON_FAILED))
  else
    let p := f s
    match p.2 with
    | .ok a => (p.1, .ok a)
    | .error e => (close { p.1 with rcon_failure := true }, .error e)

/-- `socket.recv(n)`: return up to `n` of the available bytes; an empty
result means the peer closed the connection. -/
def wireRecv (w : Wire) (n : Nat) : Wire × List Nat :=
  ({ w with incoming := w.incoming.drop n }, w.incoming.take n)

/-- The `while` loop of `RCONClient.receive_exactly`: grow the buffer by
`recv(min(size - len(buffer), RECV_SIZE))` chunks; an empty read makes the
whole call return `b""`.  The fuel is only a termination device: every
iteration either returns or grows the buffer by at least one byte, so any
fuel at least `size` gives the loop's behaviour, and when the fuel hits 0
the buffer has already reached `size` and the returned value agrees with
the loop's exit. -/
def receiveLoop : Nat → Wire → Nat → List Nat → Wire × List Nat
  | 0, w, _, buffer => (w, buffer)
  | fuel + 1, w, size, buffer =>
    if buffer.length < size then
      let p := wireRecv w (min (size - buffer.length) RECV_SIZE)
      if p.2.isEmpty then (p.1, [])
      else receiveLoop fuel p.1 size (buffer ++ p.2)
    else (w, buffer)

/-- `RCONClient.receive_exactly`: exactly `size` bytes, or `b""` if the
peer closes first. -/
def receive_exactly (w : Wire) (size : Nat) : Wire × List Nat :=
  receiveLoop size w size []

/-- `RCONClient.send_packet`: build the message and `sendall` it.
`socket.timeout` and other exceptions both become `RCONSendError` (with
`CONN_TIMEOUT` or `SEND_ERROR`; the script does not distinguish the two
causes, so the model uses `SEND_ERROR`).  A `struct.error` from
`build_message` propagates unwrapped. -/
def send_packet (s : ClientState) (packet_id packet_type : Int)
    (packet_body : String) : ClientState × Except PyExc Unit :=
  match s.rcon_socket with
  | none => (s, .error (.rconNotConnected NOT_CONNECTED))
  | some w =>
    match build_message ⟨packet_id, packet_type, some packet_body⟩ with
    | .error e => (s, .error e)
    | .ok packet =>
      if w.sendVerdict w.sendCount then
        (setWire s { w with sent := w.sent ++ packet
                            sendCount := w.sendCount + 1 }, .ok ())
      else
        (setWire s { w with sendCount := w.sendCount + 1 },
          .error (.rconSendError SEND_ERROR))

/-- `RCONClient.receive_packet`: read the 4-byte length prefix (an empty
read is `RCONClosed`), then `length` more bytes (likewise), and parse.
`RCONClosed` and `InvalidResponse` pass through the `except` clauses
unchanged; in this socket model `recv` itself never raises, so the
`RCONReceiveError` arms are never taken. -/
def receive_packet (s : ClientState) : ClientState × Except PyExc RCONMessage :=
  match s.rcon_socket with
  | none => (s, .error (.rconNotConnected NOT_CONNECTED))
  | some w =>
    let p1 := receive_exactly w 4
    if p1.2.isEmpty then (setWire s p1.1, .error (.rconClosed CONN_CLOSED))
    else
      let length := fromLE p1.2
      let p2 := receive_exactly p1.1 length
      if p2.2.isEmpty then (setWire s p2.1, .error (.rconClosed CONN_CLOSED))
      else (setWire s p2.1, parse_message (p1.2 ++ p2.2) length)

/-! ## connect

`RCONClient.connect`, wrapped by `handle_socket_errors(alive_socket_required
= False)`.  The environment is a script: whether the TCP connect succeeds,
and the fresh socket's wire (whose `incoming` bytes are the server's reply
to the authentication packet). -/

/-- The authentication exchange of `connect`, from the point where the
socket is connected and `id_seq` reset:
`send_packet(self.id_seq, AUTH, password)`, one `receive_packet()`, then
the checks on the reply; an `RCONBaseError` from either call becomes
`RCONConnectError(CONNECT_COMMUNICATION_ERROR)`. -/
def connect_auth_phase (password : String) (s3 : ClientState) :
    ClientState × Except PyExc Unit :=
  let p := send_packet s3 (s3.id_seq : Int) AUTH password
  match p.2 with
  | .error e =>
    if e.isRCONBaseError then
      (p.1, .error (.rconConnectError CONNECT_COMMUNICATION_ERROR))
    else (p.1, .error e)
  | .ok _ =>
    let q := receive_packet p.1
    match q.2 with
    | .error e =>
      if e.isRCONBaseError then
        (q.1, .error (.rconConnectError CONNECT_COMMUNICATION_ERROR))
      else (q.1, .error e)
    | .ok response =>
      if response.type ≠ AUTH_RESPONSE then
        (q.1, .error (.invalidResponse INVALID_TYPE))
      else if response.id = -1 then
        (q.1, .error (.invalidPassword INVALID_PASS))
      else if response.id ≠ (q.1.id_seq : Int) then
        (q.1, .error (.invalidResponse INVALID_ID))
      else (q.1, .ok ())

def connect_inner (password : String) (tcpOk : Bool) (fresh : Wire)
    (s : ClientState) : ClientState × Except PyExc Unit :=
  -- self.close(); self.rcon_failure = False; self.rcon_socket = socket(...)
  let s2 := { close s with rcon_failure := false, rcon_socket := some fresh }
  -- self.rcon_socket.connect(...) : Exception -> RCONConnectError
  if !tcpOk then (s2, .error (.rconConnectError CONNECT_SOCKET_ERROR))
  else
    -- self.id_seq = 0; then the authentication exchange
    connect_auth_phase password { s2 with id_seq := 0 }

def connect (s : ClientState) (password : String) (tcpOk : Bool)
    (fresh : Wire) : ClientState × Except PyExc Unit :=
  guarded false (connect_inner password tcpOk fresh) s

/-! ## str.rstrip and the response bodies

`str.rstrip()` removes trailing characters for which `str.isspace()` holds:
the CPython Unicode whitespace table. -/

/-- CPython's Unicode whitespace predicate (`Py_UNICODE_ISSPACE`). -/
def isPySpace (c : Char) : Bool :=
  let n := c.toNat
  (9 ≤ n && n ≤ 13) || (0x1C ≤ n && n ≤ 0x1F) || n == 0x20 || n == 0x85 ||
    n == 0xA0 || n == 0x1680 || (0x2000 ≤ n && n ≤ 0x200A) || n == 0x2028 ||
    n == 0x2029 || n == 0x202F || n == 0x205F || n == 0x3000

/-- `str.rstrip()`: drop trailing whitespace. -/
def pyRstrip (s : String) : String :=
  ⟨(s.data.reverse.dropWhile isPySpace).reverse⟩

/-- How `send_commands` stores one response body:
`None if response.body is None else response.body.rstrip()`. -/
def processBody : Option String → Option String
  | none => none
  | some s => some (pyRstrip s)

/-! ## send_commands / send_command

`RCONClient.send_commands`, wrapped by `handle_socket_errors()`.  Python
dictionaries are association lists; `dictInsert` is `d[k] = v`
(insertion-ordered: an existing key keeps its place, a new key is
appended). -/

def dictInsert {κ β : Type} [DecidableEq κ] :
    List (κ × β) → κ → β → List (κ × β)
  | [], k, v => [(k, v)]
  | (k', v') :: t, k, v =>
    if k' = k then (k', v) :: t else (k', v') :: dictInsert t k v

/-- Python dict lookup `d[k]` / membership `k in d`
(`none` = `KeyError` / absent). -/
def dictGet {κ β : Type} [DecidableEq κ] (k : κ) :
    List (κ × β) → Option β
  | [] => none
  | (k', v) :: t => if k' = k then some v else dictGet k t

/-- The first loop of `send_commands`: for each `(key, value)` mint an id
with `get_id`, `send_packet(packet_id, EXECCOMMAND, value)`, then record
`id_map[packet_id] = key`. -/
def send_loop {κ : Type} [DecidableEq κ] (s : ClientState)
    (commands : List (κ × String)) (id_map : List (Int × κ)) :
    ClientState × Except PyExc (List (Int × κ)) :=
  match commands with
  | [] => (s, .ok id_map)
  | (key, value) :: rest =>
    let p := get_id s
    let q := send_packet p.1 (p.2 : Int) EXECCOMMAND value
    match q.2 with
    | .error e => (q.1, .error e)
    | .ok _ => send_loop q.1 rest (dictInsert id_map ((p.2 : Nat) : Int) key)

/-- `responses = [self.receive_packet() for _ in commands]`: `n` receives,
left to right; the first exception aborts the comprehension. -/
def recv_loop : ClientState → Nat → ClientState × Except PyExc (List RCONMessage)
  | s, 0 => (s, .ok [])
  | s, n + 1 =>
    let p := receive_packet s
    match p.2 with
    | .error e => (p.1, .error e)
    | .ok m =>
      let q := recv_loop p.1 n
      match q.2 with
      | .ok ms => (q.1, .ok (m :: ms))
      | .error e => (q.1, .error e)

/-- The second loop of `send_commands`: reject an unknown correlation id
(`INVALID_ID`) or a non-`RESPONSE_VALUE` type (`INVALID_TYPE`), else store
the processed body under the key minted for that id. -/
def process_loop {κ : Type} [DecidableEq κ] (id_map : List (Int × κ))
    (resps : List RCONMessage) (results : List (κ × Option String)) :
    Except PyExc (List (κ × Option String)) :=
  match resps with
  | [] => .ok results
  | r :: rest =>
    match dictGet r.id id_map with
    | none => .error (.invalidResponse INVALID_ID)
    | some key =>
      if r.type ≠ RESPONSE_VALUE then .error (.invalidResponse INVALID_TYPE)
      else process_loop id_map rest (dictInsert results key (processBody r.body))

/-- The body of `RCONClient.send_commands` (inside the decorator). -/
def send_commands_inner {κ : Type} [DecidableEq κ]
    (commands : List (κ × String)) (s : ClientState) :
    ClientState × Except PyExc (List (κ × Option String)) :=
  let p := send_loop s commands []
  match p.2 with
  | .error e => (p.1, .error e)
  | .ok id_map =>
    let q := recv_loop p.1 commands.length
    match q.2 with
    | .error e => (q.1, .error e)
    | .ok resps => (q.1, process_loop id_map resps [])

/-- `RCONClient.send_commands = handle_socket_errors()(body)`. -/
def send_commands {κ : Type} [DecidableEq κ] (s : ClientState)
    (commands : List (κ × String)) :
    ClientState × Except PyExc (List (κ × Option String)) :=
  guarded true (send_commands_inner commands) s

/-- `RCONClient.send_command`:
`self.send_commands({"command": command})["command"]` (the subscript is
outside the decorator; a missing key would be a `KeyError`). -/
def send_command (s : ClientState) (command : String) :
    ClientState × Except PyExc (Option String) :=
  let p := send_commands s [("command", command)]
  match p.2 with
  | .error e => (p.1, .error e)
  | .ok results =>
    match dictGet "command" results with
    | some v => (p.1, .ok v)
    | none => (p.1, .error .keyError)

/-! ## Dictionary lemmas -/

theorem dictGet_nil {κ β : Type} [DecidableEq κ] (k : κ) :
    dictGet k ([] : List (κ × β)) = none := rfl

theorem dictGet_cons {κ β : Type} [DecidableEq κ] (k k' : κ) (v : β) (t) :
    dictGet k ((k', v) :: t) = if k' = k then some v else dictGet k t := rfl

theorem dictGet_append_left {κ β : Type} [DecidableEq κ] (k : κ)
    (l1 l2 : List (κ × β)) (h : dictGet k l1 = none) :
    dictGet k (l1 ++ l2) = dictGet k l2 := by
  induction l1 with
  | nil => simp
  | cons p t ih =>
    obtain ⟨k', v⟩ := p
    rw [dictGet_cons] at h
    by_cases hk : k' = k
    · rw [if_pos hk] at h; exact absurd h (by simp)
    · rw [List.cons_append, dictGet_cons, if_neg hk]
      exact ih (by rwa [if_neg hk] at h)

theorem dictGet_append_some {κ β : Type} [DecidableEq κ] (k : κ)
    (l1 l2 : List (κ × β)) {v : β} (h : dictGet k l1 = some v) :
    dictGet k (l1 ++ l2) = some v := by
  induction l1 with
  | nil => simp [dictGet] at h
  | cons p t ih =>
    obtain ⟨k', v'⟩ := p
    rw [dictGet_cons] at h
    rw [List.cons_append, dictGet_cons]
    by_cases hk : k' = k
    · rwa [if_pos hk] at h ⊢
    · rw [if_neg hk] at h ⊢; exact ih h

theorem dictInsert_of_absent {κ β : Type} [DecidableEq κ] (k : κ) (v : β)
    (l : List (κ × β)) (h : dictGet k l = none) :
    dictInsert l k v = l ++ [(k, v)] := by
  induction l with
  | nil => rfl
  | cons p t ih =>
    obtain ⟨k', v'⟩ := p
    rw [dictGet_cons] at h
    by_cases hk : k' = k
    · rw [if_pos hk] at h; exact absurd h (by simp)
    · rw [if_neg hk] at h
      rw [dictInsert, if_neg hk, List.cons_append, ih h]

theorem dictGet_append_single_ne {κ β : Type} [DecidableEq κ] (k k0 : κ)
    (v : β) (l : List (κ × β)) (h : k0 ≠ k) :
    dictGet k (l ++ [(k0, v)]) = dictGet k l := by
  induction l with
  | nil => simp [dictGet_nil, dictGet_cons, h]
  | cons p t ih =>
    obtain ⟨k', v'⟩ := p
    rw [List.cons_append, dictGet_cons, dictGet_cons]
    by_cases hk : k' = k
    · rw [if_pos hk, if_pos hk]
    · rw [if_neg hk, if_neg hk, ih]

/-! ## receive_exactly characterization -/

/-- When the peer has delivered at least `size` bytes, `receive_exactly`
returns exactly the first `size` of them and leaves the rest. -/
theorem receiveLoop_enough (fuel : Nat) : ∀ (w : Wire) (size : Nat)
    (buffer : List Nat), size - buffer.length ≤ fuel →
    size ≤ buffer.length + w.incoming.length →
    receiveLoop fuel w size buffer =
      ({ w with incoming := w.incoming.drop (size - buffer.length) },
        buffer ++ w.incoming.take (size - buffer.length)) := by
  induction fuel with
  | zero =>
    intro w size buffer hfuel hav
    have hge : size ≤ buffer.length := by omega
    rw [receiveLoop]
    have h0 : size - buffer.length = 0 := by omega
    rw [h0]
    simp
  | succ fuel ih =>
    intro w size buffer hfuel hav
    rw [receiveLoop]
    by_cases hlt : buffer.length < size
    · rw [if_pos hlt]
      set k := min (size - buffer.length) RECV_SIZE with hk
      have hk1 : 1 ≤ k := by unfold RECV_SIZE at hk; omega
      have hki : k ≤ w.incoming.length := by omega
      have hne : (w.incoming.take k).isEmpty = false := by
        have hl : (w.incoming.take k).length = k := by
          rw [List.length_take]; omega
        cases hh : w.incoming.take k with
        | nil => rw [hh] at hl; simp at hl; omega
        | cons a t => simp [hh]
      simp only [hne, Bool.false_eq_true, if_false, wireRecv]
      have hlen2 : (buffer ++ w.incoming.take k).length = buffer.length + k := by
        rw [List.length_append, List.length_take]; omega
      rw [ih _ size _ (by rw [hlen2]; omega)
        (by simp only [hlen2, List.length_drop]; omega)]
      rw [hlen2]
      have e3 : k + (size - (buffer.length + k)) = size - buffer.length := by
        omega
      simp only [List.drop_drop, e3, List.append_assoc, ← List.take_add]
    · rw [if_neg hlt]
      have h0 : size - buffer.length = 0 := by omega
      rw [h0]
      simp

theorem receive_exactly_enough (w : Wire) (size : Nat)
    (hav : size ≤ w.incoming.length) :
    receive_exactly w size =
      ({ w with incoming := w.incoming.drop size }, w.incoming.take size) := by
  unfold receive_exactly
  rw [receiveLoop_enough size w size [] (by simp) (by simpa using hav)]
  simp

/-- When the peer closes before `size` bytes are available,
`receive_exactly` returns `b""` and the socket has been drained. -/
theorem receiveLoop_closed (fuel : Nat) : ∀ (w : Wire) (size : Nat)
    (buffer : List Nat), size - buffer.length ≤ fuel →
    buffer.length + w.incoming.length < size →
    receiveLoop fuel w size buffer = ({ w with incoming := [] }, []) := by
  induction fuel with
  | zero =>
    intro w size buffer hfuel hlt
    omega
  | succ fuel ih =>
    intro w size buffer hfuel hlt
    rw [receiveLoop]
    have hblt : buffer.length < size := by omega
    rw [if_pos hblt]
    cases hinc : w.incoming with
    | nil =>
      simp [wireRecv, hinc]
    | cons a t =>
      have hlen : 0 < w.incoming.length := by rw [hinc]; simp
      set k := min (size - buffer.length) RECV_SIZE with hk
      have hk1 : 1 ≤ k := by unfold RECV_SIZE at hk; omega
      have hne : (w.incoming.take k).isEmpty = false := by
        have htl : (w.incoming.take k).length = min k w.incoming.length := by
          rw [List.length_take]
        have h0 : 0 < (w.incoming.take k).length := by omega
        cases hh : w.incoming.take k with
        | nil => rw [hh] at h0; simp at h0
        | cons a t => simp [hh]
      simp only [wireRecv, hne, Bool.false_eq_true, if_false]
      have hlen2 : (buffer ++ w.incoming.take k).length =
          buffer.length + min k w.incoming.length := by
        simp [List.length_take]
      rw [ih _ size _ (by rw [hlen2]; omega)
        (by simp only [hlen2, List.length_drop]; omega)]

theorem receive_exactly_closed (w : Wire) (size : Nat)
    (hlt : w.incoming.length < size) :
    receive_exactly w size = ({ w with incoming := [] }, []) := by
  unfold receive_exactly
  exact receiveLoop_closed size w size [] (by simp) (by simpa using hlt)

/-! ## Framing: one packet on the wire -/

theorem int32Ok_nat_lt {n : Nat} (h : int32Ok ((n : Nat) : Int) = true) :
    n < 2 ^ 31 := by
  simp only [int32Ok, Bool.and_eq_true, decide_eq_true_eq] at h
  have := h.2
  have h31 : ((2 : Int) ^ 31) = ((2 ^ 31 : Nat) : Int) := by norm_num
  rw [h31] at this
  exact_mod_cast this

theorem build_message_ok_parts (m : RCONMessage) (bts : List Nat)
    (h : build_message m = .ok bts) :
    bts = le4 (fixed_length + (encodedBodyBytes m.body).length) ++
        packInt32 m.id ++ packInt32 m.type ++ encodedBodyBytes m.body ++ [0, 0]
      ∧ int32Ok ((fixed_length + (encodedBodyBytes m.body).length : Nat) : Int)
          = true
      ∧ int32Ok m.id = true ∧ int32Ok m.type = true := by
  rw [build_message_eq] at h
  unfold structPackMessage at h
  by_cases hok : (int32Ok ((fixed_length + (encodedBodyBytes m.body).length : Nat) : Int)
      && int32Ok m.id && int32Ok m.type) = true
  · rw [if_pos hok] at h
    simp only [Bool.and_eq_true] at hok
    simp only [Except.ok.injEq] at h
    exact ⟨h.symm, hok.1.1, hok.1.2, hok.2⟩
  · rw [if_neg hok] at h
    exact absurd h (by simp)

/-- The message as the receiving side reconstructs it: same id and type,
body normalized (empty comes back absent). -/
def adjustMsg (m : RCONMessage) : RCONMessage :=
  ⟨m.id, m.type, normalizeBody m.body⟩

theorem le4_isEmpty (v : Nat) : (le4 v).isEmpty = false := rfl

/-- Framing: when the socket holds one successfully encoded packet followed
by anything else, `receive_packet` consumes exactly that packet and returns
the (normalized) message. -/
theorem receive_packet_frame (s : ClientState) (w : Wire) (m : RCONMessage)
    (bts rest : List Nat) (hw : s.rcon_socket = some w)
    (hb : build_message m = .ok bts) (hi : w.incoming = bts ++ rest) :
    receive_packet s =
      (setWire s { w with incoming := rest }, .ok (adjustMsg m)) := by
  obtain ⟨hbts, hLok, hidOk, htyOk⟩ := build_message_ok_parts m bts hb
  set n := (encodedBodyBytes m.body).length with hn
  set L := fixed_length + n with hL
  have hL31 : L < 2 ^ 31 := int32Ok_nat_lt hLok
  have hL10 : 10 ≤ L := by rw [hL]; unfold fixed_length; omega
  have hblen : bts.length = L + 4 := by
    rw [hbts]
    simp only [List.length_append, le4_length, packInt32_length,
      List.length_cons, List.length_nil]
    rw [hL]
    unfold fixed_length
    omega
  have hbtsr : bts = le4 L ++ (packInt32 m.id ++ (packInt32 m.type ++
      (encodedBodyBytes m.body ++ [0, 0]))) := by
    rw [hbts]
    simp [List.append_assoc]
  have htake4bts : bts.take 4 = le4 L := by
    rw [hbtsr]
    exact List.take_left' (le4_length L)
  have hfull : le4 L ++ bts.drop 4 = bts := by
    rw [← htake4bts]
    exact List.take_append_drop 4 bts
  have h4 : 4 ≤ w.incoming.length := by
    rw [hi, List.length_append]
    omega
  have e1 : receive_exactly w 4 =
      ({ w with incoming := w.incoming.drop 4 }, w.incoming.take 4) :=
    receive_exactly_enough w 4 h4
  have etake4 : w.incoming.take 4 = le4 L := by
    rw [hi, List.take_append_of_le_length (by omega), htake4bts]
  have edrop4 : w.incoming.drop 4 = bts.drop 4 ++ rest := by
    rw [hi, List.drop_append_of_le_length (by omega)]
  have hd4len : (bts.drop 4).length = L := by
    rw [List.length_drop, hblen]
    omega
  have eL : fromLE (le4 L) = L :=
    fromLE_le4 L (by omega)
  have hLle : L ≤ (bts.drop 4 ++ rest).length := by
    rw [List.length_append, hd4len]
    omega
  have e2 : receive_exactly { w with incoming := bts.drop 4 ++ rest } L =
      ({ w with incoming := (bts.drop 4 ++ rest).drop L },
        (bts.drop 4 ++ rest).take L) :=
    receive_exactly_enough _ L hLle
  have etakeL : (bts.drop 4 ++ rest).take L = bts.drop 4 :=
    List.take_left' hd4len
  have edropL : (bts.drop 4 ++ rest).drop L = rest :=
    List.drop_left' hd4len
  have hneL : (bts.drop 4).isEmpty = false := by
    have h0 : 0 < (bts.drop 4).length := by omega
    cases hh : bts.drop 4 with
    | nil => rw [hh] at h0; simp at h0
    | cons a t => rfl
  have hp := parse_build_message m bts hb
  rw [show fixed_length + (encodedBodyBytes m.body).length = L from rfl] at hp
  unfold receive_packet
  rw [hw]
  simp only [e1, etake4, edrop4, le4_isEmpty, Bool.false_eq_true, if_false,
    eL, e2, etakeL, edropL, hneL, hfull, hp, adjustMsg]

/-- If fewer than 4 bytes arrive before the peer closes, the length-prefix
read comes back empty and `receive_packet` raises `RCONClosed`. -/
theorem receive_packet_closed (s : ClientState) (w : Wire)
    (hw : s.rcon_socket = some w) (hlt : w.incoming.length < 4) :
    receive_packet s = (setWire s { w with incoming := [] },
      .error (.rconClosed CONN_CLOSED)) := by
  unfold receive_packet
  rw [hw]
  simp only [receive_exactly_closed w 4 hlt, List.isEmpty_nil, if_true]

theorem setWire_self (s : ClientState) (w : Wire)
    (hw : s.rcon_socket = some w) : setWire s w = s := by
  obtain ⟨seq, sock, fail⟩ := s
  simp only [setWire]
  simp only at hw
  rw [hw]

/-- All the receives of one batch: when the socket holds the encodings of
`msgs` in order (then anything else), `commands.length` receives return the
normalized messages and leave the remainder on the socket. -/
theorem recv_loop_frames (msgs : List RCONMessage) :
    ∀ (s : ClientState) (w : Wire) (encs : List (List Nat)) (tail : List Nat),
    s.rcon_socket = some w →
    List.Forall₂ (fun m e => build_message m = .ok e) msgs encs →
    w.incoming = encs.flatten ++ tail →
    recv_loop s msgs.length =
      (setWire s { w with incoming := tail }, .ok (msgs.map adjustMsg)) := by
  induction msgs with
  | nil =>
    intro s w encs tail hw hf hi
    cases hf
    simp only [List.flatten_nil, List.nil_append] at hi
    have : ({ w with incoming := tail } : Wire) = w := by
      rw [← hi]
    rw [this, setWire_self s w hw]
    rfl
  | cons m ms ih =>
    intro s w encs tail hw hf hi
    cases hf with
    | cons hm hms =>
      rename_i e es
      rw [List.flatten_cons, List.append_assoc] at hi
      have hframe := receive_packet_frame s w m e (es.flatten ++ tail) hw hm hi
      show recv_loop s (ms.length + 1) = _
      rw [recv_loop]
      simp only [hframe]
      rw [ih (setWire s { w with incoming := es.flatten ++ tail })
        { w with incoming := es.flatten ++ tail } es tail rfl hms rfl]
      rfl

/-! ## The minted correlation ids of one batch -/

/-- The ids `get_id` mints from a starting counter `s0 < 2^31`:
the k-th command of the batch gets `(s0 + k + 1) % 2^31`. -/
def mintIds (s0 n : Nat) : List Nat :=
  (List.range n).map (fun i => (s0 + i + 1) % 2 ^ 31)

/-- The `id_map` one batch builds: minted id (as the int the wire carries)
to caller key, in command order. -/
def mintAssoc {κ : Type} (s0 : Nat) (keys : List κ) : List (Int × κ) :=
  List.zip ((mintIds s0 keys.length).map (fun (v : Nat) => (v : Int))) keys

theorem get_id_mod (s : ClientState) (h : s.id_seq < 2 ^ 31) :
    get_id s = ({ s with id_seq := (s.id_seq + 1) % 2 ^ 31 },
      (s.id_seq + 1) % 2 ^ 31) := by
  unfold get_id
  by_cases he : s.id_seq = 2 ^ 31 - 1
  · rw [if_pos he, he]
    norm_num
  · rw [if_neg he]
    have : (s.id_seq + 1) % 2 ^ 31 = s.id_seq + 1 := Nat.mod_eq_of_lt (by omega)
    rw [this]

theorem mintIds_lt (s0 n : Nat) : ∀ v ∈ mintIds s0 n, v < 2 ^ 31 := by
  intro v hv
  unfold mintIds at hv
  simp only [List.mem_map] at hv
  obtain ⟨i, _, hvi⟩ := hv
  rw [← hvi]
  exact Nat.mod_lt _ (by norm_num)

theorem mintIds_cons (s0 n : Nat) :
    mintIds s0 (n + 1) = (s0 + 1) % 2 ^ 31 :: mintIds ((s0 + 1) % 2 ^ 31) n := by
  unfold mintIds
  rw [List.range_succ_eq_map, List.map_cons, List.map_map]
  congr 1
  apply List.map_congr_left
  intro i _
  simp only [Function.comp_apply]
  omega

theorem mintIds_nodup (s0 n : Nat) (h : n ≤ 2 ^ 31) :
    (mintIds s0 n).Nodup := by
  unfold mintIds
  apply List.Nodup.map_on
  · intro i hi j hj hij
    simp only [List.mem_range] at hi hj
    omega
  · exact List.nodup_range n

theorem mintIds_length (s0 n : Nat) : (mintIds s0 n).length = n := by
  unfold mintIds
  simp

theorem mintAssoc_cons {κ : Type} (s0 : Nat) (k : κ) (ks : List κ) :
    mintAssoc s0 (k :: ks) =
      ((((s0 + 1) % 2 ^ 31 : Nat) : Int), k) ::
        mintAssoc ((s0 + 1) % 2 ^ 31) ks := by
  unfold mintAssoc
  rw [List.length_cons, mintIds_cons, List.map_cons, List.zip_cons_cons]

theorem build_message_ok (m : RCONMessage)
    (h1 : fixed_length + (encodedBodyBytes m.body).length < 2 ^ 31)
    (h2 : int32Ok m.id = true) (h3 : int32Ok m.type = true) :
    build_message m = .ok (le4 (fixed_length + (encodedBodyBytes m.body).length)
      ++ packInt32 m.id ++ packInt32 m.type ++ encodedBodyBytes m.body
      ++ [0, 0]) := by
  rw [build_message_eq]
  unfold structPackMessage
  rw [if_pos]
  simp only [h2, h3, Bool.and_true]
  simp only [int32Ok, Bool.and_eq_true, decide_eq_true_eq]
  constructor
  · exact le_trans (by norm_num) (Int.ofNat_nonneg _)
  · have : ((2 ^ 31 : Nat) : Int) = 2 ^ 31 := by norm_num
    rw [← this]
    exact_mod_cast h1

theorem int32Ok_ofNat (v : Nat) (h : v < 2 ^ 31) :
    int32Ok ((v : Nat) : Int) = true := by
  simp only [int32Ok, Bool.and_eq_true, decide_eq_true_eq]
  constructor
  · exact le_trans (by norm_num) (Int.ofNat_nonneg _)
  · have he : ((2 ^ 31 : Nat) : Int) = 2 ^ 31 := by norm_num
    rw [← he]
    exact_mod_cast h

theorem int32Ok_type2 : int32Ok EXECCOMMAND = true := by decide

/-- `send_packet` unfolded (definitional equation). -/
theorem send_packet_eq (s : ClientState) (pid ptype : Int) (body : String) :
    send_packet s pid ptype body =
      match s.rcon_socket with
      | none => (s, .error (.rconNotConnected NOT_CONNECTED))
      | some w =>
        match build_message ⟨pid, ptype, some body⟩ with
        | .error e => (s, .error e)
        | .ok packet =>
          if w.sendVerdict w.sendCount then
            (setWire s { w with sent := w.sent ++ packet
                                sendCount := w.sendCount + 1 }, .ok ())
          else
            (setWire s { w with sendCount := w.sendCount + 1 },
              .error (.rconSendError SEND_ERROR)) := rfl

theorem send_packet_ok (s : ClientState) (w : Wire) (pid ptype : Int)
    (body : String) (pkt : List Nat) (hw : s.rcon_socket = some w)
    (hb : build_message ⟨pid, ptype, some body⟩ = .ok pkt)
    (hv : w.sendVerdict w.sendCount = true) :
    send_packet s pid ptype body =
      (setWire s { w with sent := w.sent ++ pkt
                          sendCount := w.sendCount + 1 }, .ok ()) := by
  rw [send_packet_eq, hw, hb]
  exact if_pos hv

/-- The send phase of one batch: every packet is built and written, the
counter advances once per command, and the `id_map` extends the accumulator
with the minted id of each key, in order. -/
theorem send_loop_spec {κ : Type} [DecidableEq κ] (commands : List (κ × String)) :
    ∀ (s : ClientState) (w : Wire) (idm : List (Int × κ)),
    s.rcon_socket = some w →
    s.id_seq < 2 ^ 31 →
    commands.length ≤ 2 ^ 31 →
    (∀ i, i < commands.length → w.sendVerdict (w.sendCount + i) = true) →
    (∀ p ∈ commands, fixed_length + (utf8Encode p.2).length < 2 ^ 31) →
    (∀ v ∈ mintIds s.id_seq commands.length,
      dictGet ((v : Nat) : Int) idm = none) →
    ∃ bytes, send_loop s commands idm =
      ({ s with id_seq := (s.id_seq + commands.length) % 2 ^ 31
                rcon_socket := some { w with sent := w.sent ++ bytes
                                             sendCount := w.sendCount + commands.length } },
       .ok (idm ++ mintAssoc s.id_seq (commands.map Prod.fst))) := by
  induction commands with
  | nil =>
    intro s w idm hw hseq _ _ _ _
    refine ⟨[], ?_⟩
    rw [send_loop]
    simp only [List.length_nil, List.map_nil]
    have h1 : (s.id_seq + 0) % 2 ^ 31 = s.id_seq := by omega
    have h2 : ({ w with sent := w.sent ++ [], sendCount := w.sendCount + 0 }
        : Wire) = w := by
      simp
    rw [h1, h2]
    unfold mintAssoc mintIds
    obtain ⟨seq, sock, fail⟩ := s
    simp only at hw
    simp [hw]
  | cons p rest ih =>
    intro s w idm hw hseq hlen hverd hbody hfresh
    obtain ⟨key, value⟩ := p
    set m1 := (s.id_seq + 1) % 2 ^ 31 with hm1
    have hm1lt : m1 < 2 ^ 31 := Nat.mod_lt _ (by norm_num)
    have hmc : mintIds s.id_seq (rest.length + 1) = m1 :: mintIds m1 rest.length :=
      mintIds_cons s.id_seq rest.length
    have hnd : (mintIds s.id_seq (rest.length + 1)).Nodup :=
      mintIds_nodup s.id_seq (rest.length + 1) (by simpa using hlen)
    rw [send_loop]
    simp only [get_id_mod s hseq, ← hm1]
    have hbuild := build_message_ok ⟨(m1 : Int), EXECCOMMAND, some value⟩
      (by have := hbody (key, value) (by simp); simpa [encodedBodyBytes] using this)
      (int32Ok_ofNat m1 hm1lt) int32Ok_type2
    set pkt := le4 (fixed_length +
        (encodedBodyBytes (RCONMessage.mk (m1 : Int) EXECCOMMAND (some value)).body).length)
      ++ packInt32 (m1 : Int) ++ packInt32 EXECCOMMAND
      ++ encodedBodyBytes (RCONMessage.mk (m1 : Int) EXECCOMMAND (some value)).body
      ++ [0, 0] with hpkt
    have hsp : send_packet { s with id_seq := m1 } (m1 : Int) EXECCOMMAND value =
        (setWire { s with id_seq := m1 }
          { w with sent := w.sent ++ pkt
                   sendCount := w.sendCount + 1 }, .ok ()) :=
      send_packet_ok { s with id_seq := m1 } w (m1 : Int) EXECCOMMAND value pkt hw
        hbuild (by simpa using hverd 0 (by simp))
    simp only [hsp]
    have hm1mem : m1 ∈ mintIds s.id_seq (rest.length + 1) := by
      rw [hmc]; exact List.mem_cons_self _ _
    have hfreshHead : dictGet ((m1 : Nat) : Int) idm = none :=
      hfresh m1 hm1mem
    rw [dictInsert_of_absent _ _ _ hfreshHead]
    obtain ⟨bytes', hby'⟩ := ih (setWire { s with id_seq := m1 }
        { w with sent := w.sent ++ pkt
                 sendCount := w.sendCount + 1 })
      { w with sent := w.sent ++ pkt
               sendCount := w.sendCount + 1 }
      (idm ++ [(((m1 : Nat) : Int), key)]) rfl (by simpa using hm1lt)
      (by simp at hlen; omega)
      (by intro i hi
          simp only []
          have := hverd (i + 1) (by simp; omega)
          simpa [Nat.add_assoc, Nat.add_comm 1 i] using this)
      (by intro q hq; exact hbody q (by simp [hq]))
      (by intro v hv
          have hvfull : v ∈ mintIds s.id_seq (rest.length + 1) := by
            rw [hmc]; exact List.mem_cons_of_mem _ hv
          have hvnone := hfresh v hvfull
          have hvne : v ≠ m1 := by
            rw [hmc] at hnd
            intro he
            rw [he] at hv
            exact (List.nodup_cons.mp hnd).1 hv
          rw [dictGet_append_left _ _ _ hvnone]
          rw [dictGet_cons]
          rw [if_neg (by simpa using fun hc => hvne ((by exact_mod_cast hc.symm)))]
          rfl)
    refine ⟨pkt ++ bytes', ?_⟩
    rw [hby']
    have e1 : (m1 + rest.length) % 2 ^ 31 =
        (s.id_seq + (rest.length + 1)) % 2 ^ 31 := by
      rw [hm1]; omega
    have e2 : w.sendCount + 1 + rest.length = w.sendCount + (rest.length + 1) := by
      omega
    simp only [setWire, List.map_cons, mintAssoc_cons, ← hm1, List.length_cons,
      e1, e2, List.append_assoc, List.singleton_append]

/-! ## The response-processing phase -/

theorem process_loop_nil {κ : Type} [DecidableEq κ] (id_map : List (Int × κ))
    (results : List (κ × Option String)) :
    process_loop id_map [] results = .ok results := rfl

theorem process_loop_cons {κ : Type} [DecidableEq κ] (id_map : List (Int × κ))
    (r : RCONMessage) (rest : List RCONMessage)
    (results : List (κ × Option String)) :
    process_loop id_map (r :: rest) results =
      match dictGet r.id id_map with
      | none => .error (.invalidResponse INVALID_ID)
      | some key =>
        if r.type ≠ RESPONSE_VALUE then .error (.invalidResponse INVALID_TYPE)
        else process_loop id_map rest
          (dictInsert results key (processBody r.body)) := rfl

/-- Processing a batch of well-correlated responses succeeds; the result
dictionary holds, under the key of each response's id, that response's
processed body, leaves unrelated keys as they were, and appends its new
keys in arrival order. -/
theorem process_loop_spec {κ : Type} [DecidableEq κ] (id_map : List (Int × κ))
    (hinj : ∀ i j k, dictGet i id_map = some k → dictGet j id_map = some k →
      i = j) :
    ∀ (resps : List RCONMessage) (results : List (κ × Option String)),
    (∀ r ∈ resps, r.type = RESPONSE_VALUE) →
    (∀ r ∈ resps, ∃ k, dictGet r.id id_map = some k ∧
      dictGet k results = none) →
    (resps.map RCONMessage.id).Nodup →
    ∃ out, process_loop id_map resps results = .ok out ∧
      (∀ r ∈ resps, ∀ k, dictGet r.id id_map = some k →
        dictGet k out = some (processBody r.body)) ∧
      (∀ k, (∀ r ∈ resps, dictGet r.id id_map ≠ some k) →
        dictGet k out = dictGet k results) ∧
      out.map Prod.fst = results.map Prod.fst ++
        resps.filterMap (fun r => dictGet r.id id_map) := by
  intro resps
  induction resps with
  | nil =>
    intro results _ _ _
    refine ⟨results, process_loop_nil id_map results, ?_, ?_, ?_⟩
    · intro r hr; exact absurd hr (List.not_mem_nil r)
    · intro k _; rfl
    · simp
  | cons r rest ih =>
    intro results hty hks hnd
    obtain ⟨k0, hk0, hfresh0⟩ := hks r (List.mem_cons_self r rest)
    have hty0 := hty r (List.mem_cons_self r rest)
    have hstep : process_loop id_map (r :: rest) results =
        process_loop id_map rest (dictInsert results k0 (processBody r.body)) := by
      rw [process_loop_cons, hk0]
      exact if_neg (by simp [hty0, RESPONSE_VALUE])
    rw [hstep]
    have hins := dictInsert_of_absent k0 (processBody r.body) results hfresh0
    have hndrest : (rest.map RCONMessage.id).Nodup := by
      simp only [List.map_cons, List.nodup_cons] at hnd
      exact hnd.2
    have hidnotin : r.id ∉ rest.map RCONMessage.id := by
      simp only [List.map_cons, List.nodup_cons] at hnd
      exact hnd.1
    obtain ⟨out, hout, hset, hkeep, hkeys⟩ := ih
      (dictInsert results k0 (processBody r.body))
      (fun q hq => hty q (List.mem_cons_of_mem r hq))
      (by
        intro q hq
        obtain ⟨k, hk, hfr⟩ := hks q (List.mem_cons_of_mem r hq)
        refine ⟨k, hk, ?_⟩
        have hkne : k ≠ k0 := by
          intro he
          rw [he] at hk
          have := hinj q.id r.id k0 hk hk0
          exact hidnotin (this ▸ List.mem_map_of_mem RCONMessage.id hq)
        rw [hins, dictGet_append_left _ _ _ hfr, dictGet_cons]
        rw [if_neg (fun hc => hkne hc.symm)]
        rfl)
      hndrest
    refine ⟨out, hout, ?_, ?_, ?_⟩
    · intro q hq k hk
      rcases List.mem_cons.mp hq with hq0 | hqr
      · have hkk0 : k = k0 := by
          rw [hq0, hk0] at hk
          injection hk with h
          exact h.symm
        have hnone : ∀ q' ∈ rest, dictGet q'.id id_map ≠ some k0 := by
          intro q' hq' hc
          have hqr' := hinj q'.id r.id k0 hc hk0
          exact hidnotin (hqr' ▸ List.mem_map_of_mem RCONMessage.id hq')
        rw [hq0, hkk0]
        rw [hkeep k0 hnone, hins, dictGet_append_left _ _ _ hfresh0,
          dictGet_cons, if_pos rfl]
      · exact hset q hqr k hk
    · intro k hknone
      have hkne : k0 ≠ k := by
        intro he
        exact hknone r (List.mem_cons_self r rest) (he ▸ hk0)
      rw [hkeep k (fun q hq => hknone q (List.mem_cons_of_mem r hq)), hins,
        dictGet_append_single_ne k k0 _ results hkne]
    · rw [hkeys, hins]
      simp only [List.map_append, List.map_cons, List.map_nil,
        List.filterMap_cons, hk0]
      simp [List.append_assoc]

/-! ## Association lemmas for the minted id map -/

theorem dictGet_some_key_mem {κ β : Type} [DecidableEq κ] {k : κ} {v : β}
    {l : List (κ × β)} (h : dictGet k l = some v) : k ∈ l.map Prod.fst := by
  induction l with
  | nil => simp [dictGet_nil] at h
  | cons p t ih =>
    obtain ⟨k', v'⟩ := p
    rw [dictGet_cons] at h
    by_cases hk : k' = k
    · simp [hk]
    · rw [if_neg hk] at h
      simp only [List.map_cons]
      exact List.mem_cons_of_mem _ (ih h)

theorem dictGet_some_value_mem {κ β : Type} [DecidableEq κ] {k : κ} {v : β}
    {l : List (κ × β)} (h : dictGet k l = some v) : v ∈ l.map Prod.snd := by
  induction l with
  | nil => simp [dictGet_nil] at h
  | cons p t ih =>
    obtain ⟨k', v'⟩ := p
    rw [dictGet_cons] at h
    by_cases hk : k' = k
    · rw [if_pos hk] at h
      injection h with h
      simp [h]
    · rw [if_neg hk] at h
      simp only [List.map_cons]
      exact List.mem_cons_of_mem _ (ih h)

/-- Position-wise lookup in a zipped association list with distinct keys. -/
theorem dictGet_zip_idx {κ : Type} [DecidableEq κ] (ms : List Int) :
    ∀ (ks : List κ), ms.Nodup →
    ∀ (i : Nat) (v : Int) (k : κ), ms[i]? = some v → ks[i]? = some k →
    dictGet v (List.zip ms ks) = some k := by
  induction ms with
  | nil => intro ks _ i v k h1 _; simp at h1
  | cons m mt ih =>
    intro ks hnd i v k h1 h2
    cases ks with
    | nil => simp at h2
    | cons k0 kt =>
      rw [List.zip_cons_cons, dictGet_cons]
      cases i with
      | zero =>
        simp only [List.getElem?_cons_zero, Option.some.injEq] at h1 h2
        rw [if_pos h1, h2]
      | succ j =>
        simp only [List.getElem?_cons_succ] at h1 h2
        have hvm : v ∈ mt := List.getElem?_mem h1
        have hne : m ≠ v := by
          intro he
          rw [List.nodup_cons] at hnd
          exact hnd.1 (he ▸ hvm)
        rw [if_neg hne]
        exact ih kt (List.nodup_cons.mp hnd).2 j v k h1 h2

/-- Lookup keyed on values of a zipped association list with distinct
values is injective on keys. -/
theorem mem_of_mem_zip_map_snd {κ : Type} {ms : List Int} {ks : List κ}
    {k : κ} (h : k ∈ (List.zip ms ks).map Prod.snd) : k ∈ ks := by
  simp only [List.mem_map] at h
  obtain ⟨p, hp, he⟩ := h
  exact he ▸ (List.of_mem_zip hp).2

theorem dictGet_zip_value_inj {κ : Type} [DecidableEq κ] (ms : List Int) :
    ∀ (ks : List κ), ks.Nodup →
    ∀ i j k, dictGet i (List.zip ms ks) = some k →
    dictGet j (List.zip ms ks) = some k → i = j := by
  induction ms with
  | nil => intro ks _ i j k h1 _; simp [List.zip_nil_left, dictGet_nil] at h1
  | cons m mt ih =>
    intro ks hnd i j k h1 h2
    cases ks with
    | nil => simp [List.zip_nil_right, dictGet_nil] at h1
    | cons k0 kt =>
      rw [List.zip_cons_cons, dictGet_cons] at h1 h2
      have hk0not : k0 ∉ kt := (List.nodup_cons.mp hnd).1
      by_cases hi : m = i
      · rw [if_pos hi] at h1
        by_cases hj : m = j
        · rw [hi] at hj; exact hj
        · rw [if_neg hj] at h2
          injection h1 with h1
          rw [← h1] at h2
          exact absurd (mem_of_mem_zip_map_snd (dictGet_some_value_mem h2))
            hk0not
      · rw [if_neg hi] at h1
        by_cases hj : m = j
        · rw [if_pos hj] at h2
          injection h2 with h2
          rw [← h2] at h1
          exact absurd (mem_of_mem_zip_map_snd (dictGet_some_value_mem h1))
            hk0not
        · rw [if_neg hj] at h2
          exact ih kt (List.nodup_cons.mp hnd).2 i j k h1 h2

/-! ## Assembling send_commands -/

theorem isNone_false_of_isSome {w : Option Wire} (h1 : w.isSome = true) :
    w.isNone = false := by
  cases w
  · simp at h1
  · rfl

theorem guarded_run_ok {α : Type} (f : ClientState → ClientState × Except PyExc α)
    (s t : ClientState) (a : α) (h1 : s.rcon_socket.isSome = true)
    (h2 : s.rcon_failure = false) (hf : f s = (t, .ok a)) :
    guarded true f s = (t, .ok a) := by
  unfold guarded
  rw [if_neg (by simp [isNone_false_of_isSome h1]), if_neg (by simp [h2])]
  simp only [hf]

theorem guarded_run_err {α : Type} (f : ClientState → ClientState × Except PyExc α)
    (s t : ClientState) (e : PyExc) (h1 : s.rcon_socket.isSome = true)
    (h2 : s.rcon_failure = false) (hf : f s = (t, .error e)) :
    guarded true f s = (close { t with rcon_failure := true }, .error e) := by
  unfold guarded
  rw [if_neg (by simp [isNone_false_of_isSome h1]), if_neg (by simp [h2])]
  simp only [hf]

theorem guarded_notConnected {α : Type}
    (f : ClientState → ClientState × Except PyExc α) (s : ClientState)
    (h : s.rcon_socket.isNone = true) :
    guarded true f s = (s, .error (.rconNotConnected NOT_CONNECTED)) := by
  unfold guarded
  simp only [h, Bool.and_true, if_true]

theorem guarded_bypass_ok {α : Type}
    (f : ClientState → ClientState × Except PyExc α) (s t : ClientState)
    (a : α) (hf : f s = (t, .ok a)) : guarded false f s = (t, .ok a) := by
  unfold guarded
  rw [if_neg (by simp), if_neg (by simp)]
  simp only [hf]

theorem guarded_bypass_err {α : Type}
    (f : ClientState → ClientState × Except PyExc α) (s t : ClientState)
    (e : PyExc) (hf : f s = (t, .error e)) :
    guarded false f s = (close { t with rcon_failure := true }, .error e) := by
  unfold guarded
  rw [if_neg (by simp), if_neg (by simp)]
  simp only [hf]

theorem send_commands_inner_ok {κ : Type} [DecidableEq κ]
    (commands : List (κ × String)) (s s1 s2 : ClientState)
    (id_map : List (Int × κ)) (resps : List RCONMessage)
    (res : Except PyExc (List (κ × Option String)))
    (h1 : send_loop s commands [] = (s1, .ok id_map))
    (h2 : recv_loop s1 commands.length = (s2, .ok resps))
    (h3 : process_loop id_map resps [] = res) :
    send_commands_inner commands s = (s2, res) := by
  unfold send_commands_inner
  simp only [h1, h2, h3]

theorem send_commands_inner_err_recv {κ : Type} [DecidableEq κ]
    (commands : List (κ × String)) (s s1 s2 : ClientState)
    (id_map : List (Int × κ)) (e : PyExc)
    (h1 : send_loop s commands [] = (s1, .ok id_map))
    (h2 : recv_loop s1 commands.length = (s2, .error e)) :
    send_commands_inner commands s = (s2, .error e) := by
  unfold send_commands_inner
  simp only [h1, h2]

/-- The bytes `build_message` produces on success. -/
def buildBytes (m : RCONMessage) : List Nat :=
  le4 (fixed_length + (encodedBodyBytes m.body).length) ++ packInt32 m.id ++
    packInt32 m.type ++ encodedBodyBytes m.body ++ [0, 0]

theorem buildBytes_eq {m : RCONMessage} {l : List Nat}
    (h : build_message m = .ok l) : buildBytes m = l :=
  (build_message_ok_parts m l h).1.symm

theorem forall2_build_map (msgs : List RCONMessage)
    (h : ∀ m ∈ msgs, build_message m = .ok (buildBytes m)) :
    List.Forall₂ (fun m e => build_message m = .ok e) msgs
      (msgs.map buildBytes) := by
  induction msgs with
  | nil => simp
  | cons m t ih =>
    rw [List.map_cons]
    exact List.Forall₂.cons (h m (List.mem_cons_self m t))
      (ih (fun q hq => h q (List.mem_cons_of_mem m hq)))

theorem mem_zipWith {α β γ : Type} {f : α → β → γ} {c : γ} :
    ∀ {as : List α} {bs : List β}, c ∈ List.zipWith f as bs →
    ∃ a b, a ∈ as ∧ b ∈ bs ∧ c = f a b := by
  intro as
  induction as with
  | nil => intro bs h; simp at h
  | cons a at' ih =>
    intro bs h
    cases bs with
    | nil => simp at h
    | cons b bt =>
      rw [List.zipWith_cons_cons] at h
      rcases List.mem_cons.mp h with h0 | h1
      · exact ⟨a, b, List.mem_cons_self _ _, List.mem_cons_self _ _, h0⟩
      · obtain ⟨a', b', ha, hb, he⟩ := ih h1
        exact ⟨a', b', List.mem_cons_of_mem _ ha, List.mem_cons_of_mem _ hb, he⟩

theorem dictGet_zip_mem {κ : Type} [DecidableEq κ] :
    ∀ (ms : List Int) (ks : List κ) (v : Int), v ∈ ms →
    ms.length = ks.length → ∃ k, dictGet v (List.zip ms ks) = some k := by
  intro ms
  induction ms with
  | nil => intro ks v hv; simp at hv
  | cons m mt ih =>
    intro ks v hv hlen
    cases ks with
    | nil => simp at hlen
    | cons k0 kt =>
      rw [List.zip_cons_cons, dictGet_cons]
      by_cases he : m = v
      · exact ⟨k0, by rw [if_pos he]⟩
      · rcases List.mem_cons.mp hv with h0 | h1
        · exact absurd h0.symm he
        · obtain ⟨k, hk⟩ := ih kt v h1 (by simpa using hlen)
          exact ⟨k, by rw [if_neg he]; exact hk⟩

theorem zipWith_msg_map_id :
    ∀ (ms : List Nat) (bs : List (Option String)), ms.length = bs.length →
    (List.zipWith (fun (v : Nat) (b : Option String) =>
      RCONMessage.mk (v : Int) RESPONSE_VALUE b) ms bs).map RCONMessage.id =
      ms.map (fun (v : Nat) => (v : Int)) := by
  intro ms
  induction ms with
  | nil => intro bs _; simp
  | cons m mt ih =>
    intro bs hlen
    cases bs with
    | nil => simp at hlen
    | cons b bt =>
      rw [List.zipWith_cons_cons, List.map_cons, List.map_cons,
        ih bt (by simpa using hlen)]

/-! ## Small consequences used by the batch specification -/

theorem mintIds_getElem (s0 n i : Nat) (h : i < n) :
    (mintIds s0 n)[i]? = some ((s0 + i + 1) % 2 ^ 31) := by
  unfold mintIds
  rw [List.getElem?_map, List.getElem?_range h]
  rfl

theorem map_adjust_id (resps : List RCONMessage) :
    (resps.map adjustMsg).map RCONMessage.id = resps.map RCONMessage.id := by
  rw [List.map_map]
  exact List.map_congr_left (fun r _ => rfl)

/-- The response loop hits the `packet_id not in id_map` arm as soon as the
batch contains a response whose id was never minted (all well-typed
responses before it are absorbed into `results`, which the raised
exception then discards). -/
theorem process_loop_unknown {κ : Type} [DecidableEq κ]
    (id_map : List (Int × κ)) :
    ∀ (resps : List RCONMessage) (results : List (κ × Option String)),
    (∀ r ∈ resps, r.type = RESPONSE_VALUE) →
    (∃ r ∈ resps, dictGet r.id id_map = none) →
    process_loop id_map resps results = .error (.invalidResponse INVALID_ID) := by
  intro resps
  induction resps with
  | nil =>
    intro results _ hbad
    obtain ⟨r, hr, _⟩ := hbad
    exact absurd hr (List.not_mem_nil r)
  | cons r rest ih =>
    intro results hty hbad
    rw [process_loop_cons]
    cases hk : dictGet r.id id_map with
    | none => rfl
    | some k =>
      have hty0 := hty r (List.mem_cons_self r rest)
      show (if r.type ≠ RESPONSE_VALUE then
          Except.error (PyExc.invalidResponse INVALID_TYPE)
        else process_loop id_map rest
          (dictInsert results k (processBody r.body))) =
        Except.error (PyExc.invalidResponse INVALID_ID)
      rw [if_neg (by simp [hty0, RESPONSE_VALUE])]
      apply ih (dictInsert results k (processBody r.body))
        (fun q hq => hty q (List.mem_cons_of_mem r hq))
      obtain ⟨q, hq, hqn⟩ := hbad
      rcases List.mem_cons.mp hq with h0 | h1
      · rw [h0] at hqn
        rw [hqn] at hk
        exact absurd hk (by simp)
      · exact ⟨q, h1, hqn⟩

/-- Both clients' rejection of a dead connection, at the `send_commands`
level: no socket means `RCONNotConnected` and an untouched state. -/
theorem send_commands_notConnected {κ : Type} [DecidableEq κ]
    (s : ClientState) (commands : List (κ × String))
    (h : s.rcon_socket = none) :
    send_commands s commands = (s, .error (.rconNotConnected NOT_CONNECTED)) :=
  guarded_notConnected _ s (by rw [h]; rfl)

theorem send_command_notConnected (s : ClientState) (c : String)
    (h : s.rcon_socket = none) :
    send_command s c = (s, .error (.rconNotConnected NOT_CONNECTED)) := by
  unfold send_command
  simp only [send_commands_notConnected s [("command", c)] h]

/-- `str.rstrip()` of an all-whitespace string is empty. -/
theorem pyRstrip_all_space (b : String) (h : ∀ c ∈ b.data, isPySpace c = true) :
    pyRstrip b = "" := by
  unfold pyRstrip
  have hd : b.data.reverse.dropWhile isPySpace = [] := by
    rw [List.dropWhile_eq_nil_iff]
    intro c hc
    exact h c (List.mem_reverse.mp hc)
  rw [hd]
  rfl

/-- What the caller sees of an all-whitespace response body: absent when
the body was empty on the wire, the empty string otherwise. -/
theorem whitespace_processBody (b : String)
    (h : ∀ c ∈ b.data, isPySpace c = true) :
    processBody (normalizeBody (some b)) = if b = "" then none else some "" := by
  by_cases hb : b = ""
  · rw [if_pos hb, hb]
    show processBody (if ("" : String) = "" then none else some "") = none
    rw [if_pos rfl]
    rfl
  · rw [if_neg hb]
    show processBody (if b = "" then none else some b) = some ""
    rw [if_neg hb]
    show some (pyRstrip b) = some ""
    rw [pyRstrip_all_space b h]

/-! ## The master specification of one send_commands batch -/

/-- One whole `send_commands` batch against a ready client.  The wire
scenario: the peer will deliver, in any order (`hperm`), exactly one
`RESPONSE_VALUE` reply per minted correlation id, the `i`-th minted id
carrying `bodies[i]`; the concatenation of their encodings is what `recv`
will produce.  The call then succeeds, every packet is written, the result
binds each input key to the processed body answered for that key's own id,
and the result's keys are exactly the input keys. -/
theorem sendCommands_spec {κ : Type} [DecidableEq κ]
    (commands : List (κ × String)) (s : ClientState) (w : Wire)
    (bodies : List (Option String)) (resps : List RCONMessage)
    (hw : s.rcon_socket = some w)
    (hfail : s.rcon_failure = false)
    (hseq : s.id_seq < 2 ^ 31)
    (hN : commands.length ≤ 2 ^ 31)
    (hkeys : (commands.map Prod.fst).Nodup)
    (hverd : ∀ i, i < commands.length → w.sendVerdict (w.sendCount + i) = true)
    (hcmd : ∀ p ∈ commands, fixed_length + (utf8Encode p.2).length < 2 ^ 31)
    (hblen : bodies.length = commands.length)
    (hperm : resps.Perm (List.zipWith
      (fun (v : Nat) (b : Option String) =>
        RCONMessage.mk ((v : Nat) : Int) RESPONSE_VALUE b)
      (mintIds s.id_seq commands.length) bodies))
    (hbuild : ∀ r ∈ resps, build_message r = .ok (buildBytes r))
    (hwire : w.incoming = (resps.map buildBytes).flatten) :
    ∃ bytes results,
      send_commands s commands =
        ({ s with id_seq := (s.id_seq + commands.length) % 2 ^ 31
                  rcon_socket := some
                    { w with sent := w.sent ++ bytes
                             sendCount := w.sendCount + commands.length
                             incoming := [] } },
         .ok results) ∧
      (results.map Prod.fst).Perm (commands.map Prod.fst) ∧
      List.Forall₂ (fun (p : κ × String) (b : Option String) =>
        dictGet p.1 results = some (processBody (normalizeBody b)))
        commands bodies := by
  obtain ⟨bytes, hsend⟩ := send_loop_spec commands s w [] hw hseq hN hverd hcmd
    (fun v hv => dictGet_nil _)
  rw [List.nil_append] at hsend
  have hlenresps : resps.length = commands.length := by
    have h1 := hperm.length_eq
    rw [List.length_zipWith, mintIds_length, hblen] at h1
    simpa using h1
  have hrecv := recv_loop_frames resps
    ({ s with id_seq := (s.id_seq + commands.length) % 2 ^ 31
              rcon_socket := some
                { w with sent := w.sent ++ bytes
                         sendCount := w.sendCount + commands.length } })
    ({ w with sent := w.sent ++ bytes
              sendCount := w.sendCount + commands.length })
    (resps.map buildBytes) [] rfl (forall2_build_map resps hbuild)
    (by show w.incoming = (resps.map buildBytes).flatten ++ []
        rw [List.append_nil]
        exact hwire)
  rw [hlenresps] at hrecv
  have hkl : (commands.map Prod.fst).length = commands.length :=
    List.length_map _ _
  have hmA : mintAssoc s.id_seq (commands.map Prod.fst) =
      List.zip ((mintIds s.id_seq commands.length).map
        (fun (v : Nat) => (v : Int))) (commands.map Prod.fst) := by
    unfold mintAssoc
    rw [hkl]
  have hmsnodup : ((mintIds s.id_seq commands.length).map
      (fun (v : Nat) => (v : Int))).Nodup :=
    List.Nodup.map Nat.cast_injective (mintIds_nodup _ _ hN)
  have hidsperm : (resps.map RCONMessage.id).Perm
      ((mintIds s.id_seq commands.length).map (fun (v : Nat) => (v : Int))) := by
    have h1 := hperm.map RCONMessage.id
    rw [zipWith_msg_map_id (mintIds s.id_seq commands.length) bodies
      (by rw [mintIds_length, hblen])] at h1
    exact h1
  have hndids : ((resps.map adjustMsg).map RCONMessage.id).Nodup := by
    rw [map_adjust_id]
    exact (hidsperm.nodup_iff).mpr hmsnodup
  have hinj : ∀ i j k,
      dictGet i (mintAssoc s.id_seq (commands.map Prod.fst)) = some k →
      dictGet j (mintAssoc s.id_seq (commands.map Prod.fst)) = some k →
      i = j := by
    rw [hmA]
    exact fun i j k => dictGet_zip_value_inj _ _ hkeys i j k
  have hty : ∀ r ∈ resps.map adjustMsg, r.type = RESPONSE_VALUE := by
    intro r hr
    obtain ⟨r0, hr0, he⟩ := List.mem_map.mp hr
    have hr0z := (hperm.mem_iff).mp hr0
    obtain ⟨v, b, _, _, hrb⟩ := mem_zipWith hr0z
    rw [← he, hrb]
    rfl
  have hlenms : ((mintIds s.id_seq commands.length).map
      (fun (v : Nat) => (v : Int))).length = (commands.map Prod.fst).length := by
    rw [List.length_map, mintIds_length, List.length_map]
  have hks : ∀ r ∈ resps.map adjustMsg,
      ∃ k, dictGet r.id (mintAssoc s.id_seq (commands.map Prod.fst)) = some k ∧
        dictGet k ([] : List (κ × Option String)) = none := by
    intro r hr
    obtain ⟨r0, hr0, he⟩ := List.mem_map.mp hr
    have hid : r.id ∈ (mintIds s.id_seq commands.length).map
        (fun (v : Nat) => (v : Int)) := by
      have h0 : r0.id ∈ resps.map RCONMessage.id := List.mem_map_of_mem _ hr0
      apply (hidsperm.mem_iff).mp
      rw [← he]
      exact h0
    obtain ⟨k, hk⟩ := dictGet_zip_mem _ _ r.id hid hlenms
    rw [hmA]
    exact ⟨k, hk, rfl⟩
  obtain ⟨out, hout, hset, hkeep, hkeysout⟩ :=
    process_loop_spec (mintAssoc s.id_seq (commands.map Prod.fst)) hinj
      (resps.map adjustMsg) [] hty hks hndids
  have hinner := send_commands_inner_ok commands s _ _ _ _ (.ok out)
    hsend hrecv hout
  refine ⟨bytes, out,
    guarded_run_ok _ s _ out (by rw [hw]; rfl) hfail hinner, ?_, ?_⟩
  · have hsub : (commands.map Prod.fst) ⊆ out.map Prod.fst := by
      intro k hk
      obtain ⟨i, hki⟩ := List.getElem?_of_mem hk
      have hiN : i < commands.length := by
        obtain ⟨h, _⟩ := List.getElem?_eq_some.mp hki
        rw [List.length_map] at h
        exact h
      have hmsi : ((mintIds s.id_seq commands.length).map
          (fun (v : Nat) => (v : Int)))[i]? =
          some ((((s.id_seq + i + 1) % 2 ^ 31 : Nat) : Int)) := by
        rw [List.getElem?_map, mintIds_getElem s.id_seq commands.length i hiN]
        rfl
      have hdg : dictGet ((((s.id_seq + i + 1) % 2 ^ 31 : Nat) : Int))
          (mintAssoc s.id_seq (commands.map Prod.fst)) = some k := by
        rw [hmA]
        exact dictGet_zip_idx _ _ hmsnodup i _ _ hmsi hki
      have hvmem : ((((s.id_seq + i + 1) % 2 ^ 31 : Nat) : Int)) ∈
          resps.map RCONMessage.id :=
        (hidsperm.mem_iff).mpr (List.getElem?_mem hmsi)
      obtain ⟨r0, hr0, hr0id⟩ := List.mem_map.mp hvmem
      have hlook := hset (adjustMsg r0) (List.mem_map_of_mem _ hr0) k (by
        show dictGet r0.id _ = some k
        rw [hr0id]
        exact hdg)
      exact dictGet_some_key_mem hlook
    have hlenout : (out.map Prod.fst).length ≤ (commands.map Prod.fst).length := by
      rw [hkeysout]
      simp only [List.map_nil, List.nil_append]
      calc ((resps.map adjustMsg).filterMap
              (fun r => dictGet r.id
                (mintAssoc s.id_seq (commands.map Prod.fst)))).length
          ≤ (resps.map adjustMsg).length := List.length_filterMap_le _ _
        _ = commands.length := by rw [List.length_map, hlenresps]
        _ = (commands.map Prod.fst).length := hkl.symm
    exact ((List.Nodup.subperm hkeys hsub).perm_of_length_le hlenout).symm
  · rw [List.forall₂_iff_get]
    refine ⟨hblen.symm, ?_⟩
    intro i h1 h2
    have hzW : (List.zipWith (fun (v : Nat) (b : Option String) =>
        RCONMessage.mk ((v : Nat) : Int) RESPONSE_VALUE b)
        (mintIds s.id_seq commands.length) bodies)[i]? =
        some (RCONMessage.mk ((((s.id_seq + i + 1) % 2 ^ 31 : Nat) : Int))
          RESPONSE_VALUE (bodies.get ⟨i, h2⟩)) := by
      rw [List.getElem?_zipWith, mintIds_getElem s.id_seq commands.length i h1,
        List.getElem?_eq_getElem h2]
      rfl
    have hmzmem : RCONMessage.mk ((((s.id_seq + i + 1) % 2 ^ 31 : Nat) : Int))
        RESPONSE_VALUE (bodies.get ⟨i, h2⟩) ∈ resps :=
      (hperm.mem_iff).mpr (List.getElem?_mem hzW)
    have hmsi : ((mintIds s.id_seq commands.length).map
        (fun (v : Nat) => (v : Int)))[i]? =
        some ((((s.id_seq + i + 1) % 2 ^ 31 : Nat) : Int)) := by
      rw [List.getElem?_map, mintIds_getElem s.id_seq commands.length i h1]
      rfl
    have hki : (commands.map Prod.fst)[i]? =
        some ((commands.get ⟨i, h1⟩).1) := by
      rw [List.getElem?_map, List.getElem?_eq_getElem h1]
      rfl
    have hdg : dictGet ((((s.id_seq + i + 1) % 2 ^ 31 : Nat) : Int))
        (mintAssoc s.id_seq (commands.map Prod.fst)) =
        some ((commands.get ⟨i, h1⟩).1) := by
      rw [hmA]
      exact dictGet_zip_idx _ _ hmsnodup i _ _ hmsi hki
    have hlook := hset (adjustMsg (RCONMessage.mk
        ((((s.id_seq + i + 1) % 2 ^ 31 : Nat) : Int))
        RESPONSE_VALUE (bodies.get ⟨i, h2⟩)))
      (List.mem_map_of_mem _ hmzmem) ((commands.get ⟨i, h1⟩).1) hdg
    exact hlook

/-- A batch whose wire traffic includes a response with an unminted
correlation id: the whole call raises `InvalidResponse` (carrying
`INVALID_ID`), the decorator tears the connection down, and the caller
receives no result mapping at all. -/
theorem sendCommands_unknown_id {κ : Type} [DecidableEq κ]
    (commands : List (κ × String)) (s : ClientState) (w : Wire)
    (resps : List RCONMessage)
    (hw : s.rcon_socket = some w)
    (hfail : s.rcon_failure = false)
    (hseq : s.id_seq < 2 ^ 31)
    (hN : commands.length ≤ 2 ^ 31)
    (hverd : ∀ i, i < commands.length → w.sendVerdict (w.sendCount + i) = true)
    (hcmd : ∀ p ∈ commands, fixed_length + (utf8Encode p.2).length < 2 ^ 31)
    (hlen : resps.length = commands.length)
    (hty : ∀ r ∈ resps, r.type = RESPONSE_VALUE)
    (hbuild : ∀ r ∈ resps, build_message r = .ok (buildBytes r))
    (hwire : w.incoming = (resps.map buildBytes).flatten)
    (hbad : ∃ r ∈ resps, dictGet r.id
      (mintAssoc s.id_seq (commands.map Prod.fst)) = none) :
    ∃ s', send_commands s commands =
        (s', .error (.invalidResponse INVALID_ID)) ∧
      s'.rcon_socket = none ∧ s'.rcon_failure = true := by
  obtain ⟨bytes, hsend⟩ := send_loop_spec commands s w [] hw hseq hN hverd hcmd
    (fun v hv => dictGet_nil _)
  rw [List.nil_append] at hsend
  have hrecv := recv_loop_frames resps
    ({ s with id_seq := (s.id_seq + commands.length) % 2 ^ 31
              rcon_socket := some
                { w with sent := w.sent ++ bytes
                         sendCount := w.sendCount + commands.length } })
    ({ w with sent := w.sent ++ bytes
              sendCount := w.sendCount + commands.length })
    (resps.map buildBytes) [] rfl (forall2_build_map resps hbuild)
    (by show w.incoming = (resps.map buildBytes).flatten ++ []
        rw [List.append_nil]
        exact hwire)
  rw [hlen] at hrecv
  have htym : ∀ r ∈ resps.map adjustMsg, r.type = RESPONSE_VALUE := by
    intro r hr
    obtain ⟨r0, hr0, he⟩ := List.mem_map.mp hr
    rw [← he]
    exact hty r0 hr0
  have hbadm : ∃ r ∈ resps.map adjustMsg, dictGet r.id
      (mintAssoc s.id_seq (commands.map Prod.fst)) = none := by
    obtain ⟨r0, hr0, hn⟩ := hbad
    refine ⟨adjustMsg r0, List.mem_map_of_mem _ hr0, ?_⟩
    show dictGet r0.id _ = none
    exact hn
  have hproc := process_loop_unknown
    (mintAssoc s.id_seq (commands.map Prod.fst)) (resps.map adjustMsg) []
    htym hbadm
  have hinner := send_commands_inner_ok commands s _ _ _ _
    (.error (.invalidResponse INVALID_ID)) hsend hrecv hproc
  exact ⟨_, guarded_run_err _ s _ _ (by rw [hw]; rfl) hfail hinner, rfl, rfl⟩

/-! ## connect with a rejected password -/

theorem adjustMsg_type (m : RCONMessage) : (adjustMsg m).type = m.type := rfl

theorem adjustMsg_id (m : RCONMessage) : (adjustMsg m).id = m.id := rfl

theorem connect_inner_true (password : String) (fresh : Wire)
    (s : ClientState) :
    connect_inner password true fresh s =
      connect_auth_phase password (ClientState.mk 0 (some fresh) false) := by
  unfold connect_inner
  simp only [Bool.not_true, Bool.false_eq_true, if_false]

/-- The authentication exchange when the server's reply is a well-typed
authentication response carrying id `-1`: the password was rejected. -/
theorem connect_auth_phase_reject (password : String) (s3 : ClientState)
    (fresh : Wire) (reply : RCONMessage) (pb rb rest : List Nat)
    (hw : s3.rcon_socket = some fresh)
    (hpb : build_message ⟨(s3.id_seq : Int), AUTH, some password⟩ = .ok pb)
    (hv : fresh.sendVerdict fresh.sendCount = true)
    (hrb : build_message reply = .ok rb)
    (hin : fresh.incoming = rb ++ rest)
    (hty : reply.type = AUTH_RESPONSE)
    (hid : reply.id = -1) :
    connect_auth_phase password s3 =
      (setWire s3 { fresh with sent := fresh.sent ++ pb
                               sendCount := fresh.sendCount + 1
                               incoming := rest },
       .error (.invalidPassword INVALID_PASS)) := by
  unfold connect_auth_phase
  have hsp := send_packet_ok s3 fresh (s3.id_seq : Int) AUTH password pb
    hw hpb hv
  simp only [hsp]
  have hrp := receive_packet_frame
    (setWire s3 { fresh with sent := fresh.sent ++ pb
                             sendCount := fresh.sendCount + 1 })
    ({ fresh with sent := fresh.sent ++ pb
                  sendCount := fresh.sendCount + 1 })
    reply rb rest rfl hrb
    (by show fresh.incoming = rb ++ rest
        exact hin)
  simp only [hrp]
  rw [if_neg (by simp [adjustMsg_type, hty]), if_pos (by rw [adjustMsg_id, hid])]
  rfl

/-! ## One command, one reply -/

theorem mintIds_one (s0 : Nat) :
    mintIds s0 1 = [(s0 + 1) % 2 ^ 31] := by
  unfold mintIds
  rfl

/-- `send_command` against a ready client whose wire holds the one reply
minted for it, with body `b`: the caller receives `b` normalized (absent if
empty on the wire) and right-stripped. -/
theorem sendCommand_single (s : ClientState) (w : Wire) (cmd : String)
    (b : Option String)
    (hw : s.rcon_socket = some w)
    (hfail : s.rcon_failure = false)
    (hseq : s.id_seq < 2 ^ 31)
    (hverd0 : w.sendVerdict w.sendCount = true)
    (hcmd : fixed_length + (utf8Encode cmd).length < 2 ^ 31)
    (hb : fixed_length + (encodedBodyBytes b).length < 2 ^ 31)
    (hin : w.incoming = buildBytes
      (RCONMessage.mk ((((s.id_seq + 1) % 2 ^ 31 : Nat) : Int))
        RESPONSE_VALUE b)) :
    ∃ s', send_command s cmd = (s', .ok (processBody (normalizeBody b))) := by
  have hreply : build_message
      (RCONMessage.mk ((((s.id_seq + 1) % 2 ^ 31 : Nat) : Int))
        RESPONSE_VALUE b) = .ok (buildBytes
      (RCONMessage.mk ((((s.id_seq + 1) % 2 ^ 31 : Nat) : Int))
        RESPONSE_VALUE b)) := by
    exact build_message_ok _ hb
      (int32Ok_ofNat _ (Nat.mod_lt _ (by norm_num)))
      (by show int32Ok RESPONSE_VALUE = true
          decide)
  obtain ⟨bytes, results, heq, hpermr, hfa⟩ :=
    sendCommands_spec [("command", cmd)] s w [b]
      [RCONMessage.mk ((((s.id_seq + 1) % 2 ^ 31 : Nat) : Int))
        RESPONSE_VALUE b]
      hw hfail hseq (by norm_num) (by simp)
      (by intro i hi
          rw [List.length_singleton] at hi
          have h0 : i = 0 := by omega
          subst h0
          exact hverd0)
      (by intro p hp
          rw [List.mem_singleton] at hp
          rw [hp]
          exact hcmd)
      rfl
      (by rw [List.length_singleton, mintIds_one]
          exact List.Perm.refl _)
      (by intro r hr
          rw [List.mem_singleton] at hr
          rw [hr]
          exact hreply)
      (by rw [List.map_cons, List.map_nil, List.flatten_cons, List.flatten_nil,
            List.append_nil]
          exact hin)
  have hfa1 : dictGet "command" results =
      some (processBody (normalizeBody b)) := (List.forall₂_cons.mp hfa).1
  unfold send_command
  simp only [heq, hfa1]
  exact ⟨_, rfl⟩

/-! ## The claims -/

theorem normalizeBody_of_ne (b : Option String) (h : b ≠ some "") :
    normalizeBody b = b := by
  cases b with
  | none => rfl
  | some t =>
    show (if t = "" then none else some t) = some t
    rw [if_neg (fun he => h (by rw [he]))]

/-- C1 (corrected): encoding a packet with `build_message` and decoding the
result with `parse_message` (declared length = the encoded length prefix,
`fixed_length` plus the encoded body size) returns the identical
`(id, type, body)` triple for every packet whose body is not the empty
string; an empty-string body comes back as an absent body instead, so the
claim as stated fails there (see the counterexample). -/
theorem C1_round_trip (m : RCONMessage) (bts : List Nat)
    (hb : build_message m = .ok bts) (hne : m.body ≠ some "") :
    parse_message bts (fixed_length + (encodedBodyBytes m.body).length) =
      .ok m := by
  have h := parse_build_message m bts hb
  rw [normalizeBody_of_ne m.body hne] at h
  exact h

theorem C1_witness :
    build_message ⟨1, 0, some "a"⟩ =
      .ok [11, 0, 0, 0, 1, 0, 0, 0, 0, 0, 0, 0, 97, 0, 0] ∧
    (RCONMessage.mk 1 0 (some "a")).body ≠ some "" ∧
    parse_message [11, 0, 0, 0, 1, 0, 0, 0, 0, 0, 0, 0, 97, 0, 0]
      (fixed_length + (encodedBodyBytes (some "a")).length) =
      .ok ⟨1, 0, some "a"⟩ :=
  ⟨by decide, by decide, C1_round_trip ⟨1, 0, some "a"⟩ _ (by decide) (by decide)⟩

theorem C1_empty_body_counterexample :
    build_message ⟨0, 0, some ""⟩ =
      .ok [10, 0, 0, 0, 0, 0, 0, 0, 0, 0, 0, 0, 0, 0] ∧
    parse_message [10, 0, 0, 0, 0, 0, 0, 0, 0, 0, 0, 0, 0, 0]
      (fixed_length + (encodedBodyBytes (some "")).length) =
      .ok ⟨0, 0, none⟩ ∧
    (RCONMessage.mk 0 0 none) ≠ (RCONMessage.mk 0 0 (some "")) := by
  decide

/-- C9: from any counter value in `[0, 2^31 - 1]`, `get_id` stores and
returns the previous counter plus one, except that at `2^31 - 1` (signed
32-bit max) it wraps to 0; the returned id therefore always stays in
`[0, 2^31 - 1]` and never overflows a signed 32-bit integer. -/
theorem C9_get_id_wraps (s : ClientState) (h : s.id_seq ≤ 2 ^ 31 - 1) :
    (get_id s).2 = (if s.id_seq = 2 ^ 31 - 1 then 0 else s.id_seq + 1) ∧
    (get_id s).1.id_seq = (get_id s).2 ∧
    (get_id s).2 ≤ 2 ^ 31 - 1 := by
  unfold get_id
  by_cases he : s.id_seq = 2 ^ 31 - 1
  · rw [if_pos he, if_pos he]
    exact ⟨rfl, rfl, by norm_num⟩
  · rw [if_neg he, if_neg he]
    exact ⟨rfl, rfl, by omega⟩

theorem C9_witness :
    ((2147483647 : Nat) ≤ 2 ^ 31 - 1 ∧
      (get_id ⟨2147483647, none, false⟩).2 =
        (if (2147483647 : Nat) = 2 ^ 31 - 1 then 0 else 2147483647 + 1) ∧
      (get_id ⟨2147483647, none, false⟩).1.id_seq =
        (get_id ⟨2147483647, none, false⟩).2 ∧
      (get_id ⟨2147483647, none, false⟩).2 ≤ 2 ^ 31 - 1) ∧
    ((5 : Nat) ≤ 2 ^ 31 - 1 ∧
      (get_id ⟨5, none, false⟩).2 =
        (if (5 : Nat) = 2 ^ 31 - 1 then 0 else 5 + 1)) :=
  ⟨⟨by decide, C9_get_id_wraps ⟨2147483647, none, false⟩ (by decide)⟩,
   ⟨by decide, (C9_get_id_wraps ⟨5, none, false⟩ (by decide)).1⟩⟩

/-- C10: `parse_message` is total over its error channel: for every byte
string and every declared length it returns either a message or the
`InvalidResponse` error built from `PARSE_FAILED` (the `except` clause
around `struct.unpack` and `bytes.decode`); no other outcome exists. -/
theorem C10_parse_message_total (message : List Nat) (length : Nat) :
    (∃ m, parse_message message length = .ok m) ∨
    parse_message message length = .error (.invalidResponse PARSE_FAILED) := by
  cases h : structUnpackMessage message length with
  | error e =>
    right
    unfold parse_message
    rw [h]
  | ok t =>
    obtain ⟨id, type, bodyBytes⟩ := t
    by_cases hb : bodyBytes.isEmpty
    · left
      refine ⟨⟨id, type, none⟩, ?_⟩
      unfold parse_message
      rw [h]
      show (if bodyBytes.isEmpty then Except.ok (⟨id, type, none⟩ : RCONMessage)
        else match utf8DecodeStr bodyBytes with
        | some t => (Except.ok ⟨id, type, some t⟩ : Except PyExc RCONMessage)
        | none => Except.error (PyExc.invalidResponse PARSE_FAILED)) = _
      rw [if_pos hb]
    · cases hd : utf8DecodeStr bodyBytes with
      | some t =>
        left
        refine ⟨⟨id, type, some t⟩, ?_⟩
        unfold parse_message
        rw [h]
        show (if bodyBytes.isEmpty then Except.ok (⟨id, type, none⟩ : RCONMessage)
          else match utf8DecodeStr bodyBytes with
          | some t => (Except.ok ⟨id, type, some t⟩ : Except PyExc RCONMessage)
          | none => Except.error (PyExc.invalidResponse PARSE_FAILED)) = _
        rw [if_neg hb, hd]
      | none =>
        right
        unfold parse_message
        rw [h]
        show (if bodyBytes.isEmpty then Except.ok (⟨id, type, none⟩ : RCONMessage)
          else match utf8DecodeStr bodyBytes with
          | some t => (Except.ok ⟨id, type, some t⟩ : Except PyExc RCONMessage)
          | none => Except.error (PyExc.invalidResponse PARSE_FAILED)) = _
        rw [if_neg hb, hd]

/-- C2 (corrected): a server response whose body consists only of
whitespace is surfaced by `send_command` as absent (`None`) exactly when
the body was empty on the wire; a non-empty all-whitespace body (for
example a bare newline) is right-stripped to the empty string and returned
as `Some ""`, which is distinct from absent.  The claim as stated fails on
the newline case (see the counterexample). -/
theorem C2_whitespace_body (s : ClientState) (w : Wire) (cmd b : String)
    (hw : s.rcon_socket = some w)
    (hfail : s.rcon_failure = false)
    (hseq : s.id_seq < 2 ^ 31)
    (hverd0 : w.sendVerdict w.sendCount = true)
    (hcmd : fixed_length + (utf8Encode cmd).length < 2 ^ 31)
    (hb : fixed_length + (utf8Encode b).length < 2 ^ 31)
    (hws : ∀ c ∈ b.data, isPySpace c = true)
    (hin : w.incoming = buildBytes
      (RCONMessage.mk ((((s.id_seq + 1) % 2 ^ 31 : Nat) : Int))
        RESPONSE_VALUE (some b))) :
    ∃ s', send_command s cmd = (s', .ok (if b = "" then none else some "")) := by
  obtain ⟨s', h⟩ := sendCommand_single s w cmd (some b) hw hfail hseq hverd0
    hcmd (by show fixed_length + (utf8Encode b).length < 2 ^ 31
             exact hb) hin
  rw [whitespace_processBody b hws] at h
  exact ⟨s', h⟩

def c2State : ClientState :=
  ⟨0, some ⟨[], fun _ => true, 0,
    [11, 0, 0, 0, 1, 0, 0, 0, 0, 0, 0, 0, 10, 0, 0]⟩, false⟩

set_option maxRecDepth 10000 in
theorem C2_witness :
    ∃ s', send_command c2State "x" =
      (s', .ok (if ("\n" : String) = "" then none else some "")) :=
  C2_whitespace_body c2State ⟨[], fun _ => true, 0,
      [11, 0, 0, 0, 1, 0, 0, 0, 0, 0, 0, 0, 10, 0, 0]⟩ "x" "\n"
    rfl rfl (by decide) rfl (by decide) (by decide) (by decide) (by decide)

set_option maxRecDepth 10000 in
theorem C2_newline_counterexample :
    (send_command c2State "x").2 = .ok (some "") ∧
    some "" ≠ (none : Option String) := by
  decide

/-- C4: when the authentication reply during `connect` carries id `-1`,
`connect` raises `InvalidPassword`; the decorator then marks the client
failed and closes the socket, so every later `send_command` or
`send_commands` raises `RCONNotConnected` until `connect` runs again — the
client is never left looking ready after a rejected password. -/
theorem C4_invalid_password (s : ClientState) (password : String)
    (fresh : Wire) (reply : RCONMessage) (pb rb rest : List Nat)
    (hpb : build_message ⟨((0 : Nat) : Int), AUTH, some password⟩ = .ok pb)
    (hv : fresh.sendVerdict fresh.sendCount = true)
    (hrb : build_message reply = .ok rb)
    (hin : fresh.incoming = rb ++ rest)
    (hty : reply.type = AUTH_RESPONSE)
    (hid : reply.id = -1) :
    ∃ s', connect s password true fresh =
        (s', .error (.invalidPassword INVALID_PASS)) ∧
      s'.rcon_socket = none ∧ s'.rcon_failure = true ∧
      (∀ (commands : List (String × String)),
        send_commands s' commands =
          (s', .error (.rconNotConnected NOT_CONNECTED))) ∧
      (∀ c, send_command s' c =
        (s', .error (.rconNotConnected NOT_CONNECTED))) := by
  have hphase := connect_auth_phase_reject password
    (ClientState.mk 0 (some fresh) false) fresh reply pb rb rest rfl hpb hv
    hrb hin hty hid
  have hinner : connect_inner password true fresh s =
      (setWire (ClientState.mk 0 (some fresh) false)
        { fresh with sent := fresh.sent ++ pb
                     sendCount := fresh.sendCount + 1
                     incoming := rest },
       .error (.invalidPassword INVALID_PASS)) := by
    rw [connect_inner_true]
    exact hphase
  exact ⟨_, guarded_bypass_err _ s _ _ hinner, rfl, rfl,
    fun commands => send_commands_notConnected _ commands rfl,
    fun c => send_command_notConnected _ c rfl⟩

theorem C4_witness :
    ∃ s', connect ⟨0, none, false⟩ "pw" true
        ⟨[], fun _ => true, 0, [10, 0, 0, 0, 255, 255, 255, 255, 2, 0, 0, 0, 0, 0]⟩ =
        (s', .error (.invalidPassword INVALID_PASS)) ∧
      s'.rcon_socket = none ∧ s'.rcon_failure = true ∧
      (∀ (commands : List (String × String)),
        send_commands s' commands =
          (s', .error (.rconNotConnected NOT_CONNECTED))) ∧
      (∀ c, send_command s' c =
        (s', .error (.rconNotConnected NOT_CONNECTED))) :=
  C4_invalid_password ⟨0, none, false⟩ "pw"
    ⟨[], fun _ => true, 0, [10, 0, 0, 0, 255, 255, 255, 255, 2, 0, 0, 0, 0, 0]⟩
    ⟨-1, 2, none⟩ [12, 0, 0, 0, 0, 0, 0, 0, 3, 0, 0, 0, 112, 119, 0, 0]
    [10, 0, 0, 0, 255, 255, 255, 255, 2, 0, 0, 0, 0, 0] []
    (by decide) rfl (by decide) (by decide) rfl rfl

/-- C7: when the body of a guarded `Ready`-state operation raises, the
decorator sets the failure flag and closes the socket before re-raising,
and from that state every `send_command` and `send_commands` call is
rejected with `RCONNotConnected` until a new `connect`. -/
theorem C7_post_failure_lockout {α : Type}
    (f : ClientState → ClientState × Except PyExc α)
    (s t : ClientState) (e : PyExc)
    (h1 : s.rcon_socket.isSome = true)
    (h2 : s.rcon_failure = false)
    (hf : f s = (t, .error e)) :
    ∃ s', guarded true f s = (s', .error e) ∧
      s'.rcon_socket = none ∧ s'.rcon_failure = true ∧
      (∀ (commands : List (String × String)),
        send_commands s' commands =
          (s', .error (.rconNotConnected NOT_CONNECTED))) ∧
      (∀ c, send_command s' c =
        (s', .error (.rconNotConnected NOT_CONNECTED))) :=
  ⟨_, guarded_run_err f s t e h1 h2 hf, rfl, rfl,
    fun commands => send_commands_notConnected _ commands rfl,
    fun c => send_command_notConnected _ c rfl⟩

theorem C7_witness :
    ∃ s', guarded true
        (fun u => ((u, .error (.rconClosed CONN_CLOSED)) :
          ClientState × Except PyExc Unit))
        ⟨0, some ⟨[], fun _ => true, 0, []⟩, false⟩ =
        (s', .error (.rconClosed CONN_CLOSED)) ∧
      s'.rcon_socket = none ∧ s'.rcon_failure = true ∧
      (∀ (commands : List (String × String)),
        send_commands s' commands =
          (s', .error (.rconNotConnected NOT_CONNECTED))) ∧
      (∀ c, send_command s' c =
        (s', .error (.rconNotConnected NOT_CONNECTED))) :=
  C7_post_failure_lockout
    (fun u => ((u, .error (.rconClosed CONN_CLOSED)) :
      ClientState × Except PyExc Unit))
    ⟨0, some ⟨[], fun _ => true, 0, []⟩, false⟩
    ⟨0, some ⟨[], fun _ => true, 0, []⟩, false⟩
    (.rconClosed CONN_CLOSED) rfl rfl rfl

/-- C8: when the peer closes the connection after delivering only 3 of the
4 bytes of the length prefix, the receive inside `send_commands` raises
`RCONClosed`, the decorator marks the client failed and drops the socket,
and the call returns that error. -/
theorem C8_partial_prefix_close (s : ClientState) (w : Wire)
    (key cmd : String)
    (hw : s.rcon_socket = some w)
    (hfail : s.rcon_failure = false)
    (hseq : s.id_seq < 2 ^ 31)
    (hverd0 : w.sendVerdict w.sendCount = true)
    (hcmd : fixed_length + (utf8Encode cmd).length < 2 ^ 31)
    (hlen3 : w.incoming.length = 3) :
    ∃ s', send_commands s [(key, cmd)] =
        (s', .error (.rconClosed CONN_CLOSED)) ∧
      s'.rcon_socket = none ∧ s'.rcon_failure = true := by
  obtain ⟨bytes, hsend⟩ := send_loop_spec [(key, cmd)] s w [] hw hseq
    (by norm_num)
    (by intro i hi
        rw [List.length_singleton] at hi
        have h0 : i = 0 := by omega
        subst h0
        exact hverd0)
    (by intro p hp
        rw [List.mem_singleton] at hp
        rw [hp]
        exact hcmd)
    (fun v hv => dictGet_nil _)
  rw [List.nil_append] at hsend
  have hrp := receive_packet_closed
    ({ s with id_seq := (s.id_seq + ([(key, cmd)] : List (String × String)).length) % 2 ^ 31
              rcon_socket := some
                { w with sent := w.sent ++ bytes
                         sendCount := w.sendCount + ([(key, cmd)] : List (String × String)).length } })
    ({ w with sent := w.sent ++ bytes
              sendCount := w.sendCount + ([(key, cmd)] : List (String × String)).length })
    rfl
    (by show w.incoming.length < 4
        omega)
  have hrecv : recv_loop
      ({ s with id_seq := (s.id_seq + ([(key, cmd)] : List (String × String)).length) % 2 ^ 31
                rcon_socket := some
                  { w with sent := w.sent ++ bytes
                           sendCount := w.sendCount + ([(key, cmd)] : List (String × String)).length } })
      ([(key, cmd)] : List (String × String)).length =
      (setWire
        ({ s with id_seq := (s.id_seq + ([(key, cmd)] : List (String × String)).length) % 2 ^ 31
                  rcon_socket := some
                    { w with sent := w.sent ++ bytes
                             sendCount := w.sendCount + ([(key, cmd)] : List (String × String)).length } })
        { { w with sent := w.sent ++ bytes
                   sendCount := w.sendCount + ([(key, cmd)] : List (String × String)).length }
          with incoming := [] },
       .error (.rconClosed CONN_CLOSED)) := by
    show recv_loop _ (0 + 1) = _
    rw [recv_loop]
    simp only [hrp]
  have hinner := send_commands_inner_err_recv [(key, cmd)] s _ _ _
    (.rconClosed CONN_CLOSED) hsend hrecv
  exact ⟨_, guarded_run_err _ s _ _ (by rw [hw]; rfl) hfail hinner, rfl, rfl⟩

theorem C8_witness :
    ∃ s', send_commands ⟨0, some ⟨[], fun _ => true, 0, [0, 1, 2]⟩, false⟩
        [("k", "c")] = (s', .error (.rconClosed CONN_CLOSED)) ∧
      s'.rcon_socket = none ∧ s'.rcon_failure = true :=
  C8_partial_prefix_close ⟨0, some ⟨[], fun _ => true, 0, [0, 1, 2]⟩, false⟩
    ⟨[], fun _ => true, 0, [0, 1, 2]⟩ "k" "c"
    rfl rfl (by decide) rfl (by decide) rfl

/-- C5: if any decoded response of a batch carries a correlation id that is
not in the id map minted for that batch, the whole `send_commands` call
raises `InvalidResponse` (message `INVALID_ID`): the error channel carries
no result mapping, and the decorator tears the connection down. -/
theorem C5_unknown_id_rejected {κ : Type} [DecidableEq κ]
    (commands : List (κ × String)) (s : ClientState) (w : Wire)
    (resps : List RCONMessage)
    (hw : s.rcon_socket = some w)
    (hfail : s.rcon_failure = false)
    (hseq : s.id_seq < 2 ^ 31)
    (hN : commands.length ≤ 2 ^ 31)
    (hverd : ∀ i, i < commands.length → w.sendVerdict (w.sendCount + i) = true)
    (hcmd : ∀ p ∈ commands, fixed_length + (utf8Encode p.2).length < 2 ^ 31)
    (hlen : resps.length = commands.length)
    (hty : ∀ r ∈ resps, r.type = RESPONSE_VALUE)
    (hbuild : ∀ r ∈ resps, build_message r = .ok (buildBytes r))
    (hwire : w.incoming = (resps.map buildBytes).flatten)
    (hbad : ∃ r ∈ resps, dictGet r.id
      (mintAssoc s.id_seq (commands.map Prod.fst)) = none) :
    ∃ s', send_commands s commands =
        (s', .error (.invalidResponse INVALID_ID)) ∧
      s'.rcon_socket = none ∧ s'.rcon_failure = true :=
  sendCommands_unknown_id commands s w resps hw hfail hseq hN hverd hcmd
    hlen hty hbuild hwire hbad

theorem C5_witness :
    ∃ s', send_commands
        ⟨0, some ⟨[], fun _ => true, 0,
          [11, 0, 0, 0, 9, 0, 0, 0, 0, 0, 0, 0, 120, 0, 0]⟩, false⟩
        [("k", "c")] = (s', .error (.invalidResponse INVALID_ID)) ∧
      s'.rcon_socket = none ∧ s'.rcon_failure = true :=
  C5_unknown_id_rejected [("k", "c")]
    ⟨0, some ⟨[], fun _ => true, 0,
      [11, 0, 0, 0, 9, 0, 0, 0, 0, 0, 0, 0, 120, 0, 0]⟩, false⟩
    ⟨[], fun _ => true, 0, [11, 0, 0, 0, 9, 0, 0, 0, 0, 0, 0, 0, 120, 0, 0]⟩
    [⟨9, 0, some "x"⟩]
    rfl rfl (by decide) (by decide) (by decide) (by decide) rfl (by decide)
    (by decide) (by decide) (by decide)

/-- C6: a batch of N commands with distinct keys, answered by exactly one
`RESPONSE_VALUE` reply per minted id in an arbitrary arrival order, makes
`send_commands` return a mapping whose keys are exactly the N input keys,
each bound to the (normalized, right-stripped) body of the reply carrying
the id minted for that key. -/
theorem C6_id_correlation {κ : Type} [DecidableEq κ]
    (commands : List (κ × String)) (s : ClientState) (w : Wire)
    (bodies : List (Option String)) (resps : List RCONMessage)
    (hw : s.rcon_socket = some w)
    (hfail : s.rcon_failure = false)
    (hseq : s.id_seq < 2 ^ 31)
    (hN : commands.length ≤ 2 ^ 31)
    (hkeys : (commands.map Prod.fst).Nodup)
    (hverd : ∀ i, i < commands.length → w.sendVerdict (w.sendCount + i) = true)
    (hcmd : ∀ p ∈ commands, fixed_length + (utf8Encode p.2).length < 2 ^ 31)
    (hblen : bodies.length = commands.length)
    (hperm : resps.Perm (List.zipWith
      (fun (v : Nat) (b : Option String) =>
        RCONMessage.mk ((v : Nat) : Int) RESPONSE_VALUE b)
      (mintIds s.id_seq commands.length) bodies))
    (hbuild : ∀ r ∈ resps, build_message r = .ok (buildBytes r))
    (hwire : w.incoming = (resps.map buildBytes).flatten) :
    ∃ bytes results,
      send_commands s commands =
        ({ s with id_seq := (s.id_seq + commands.length) % 2 ^ 31
                  rcon_socket := some
                    { w with sent := w.sent ++ bytes
                             sendCount := w.sendCount + commands.length
                             incoming := [] } },
         .ok results) ∧
      (results.map Prod.fst).Perm (commands.map Prod.fst) ∧
      List.Forall₂ (fun (p : κ × String) (b : Option String) =>
        dictGet p.1 results = some (processBody (normalizeBody b)))
        commands bodies :=
  sendCommands_spec commands s w bodies resps hw hfail hseq hN hkeys hverd
    hcmd hblen hperm hbuild hwire

def c6Wire : Wire :=
  ⟨[], fun _ => true, 0,
    [16, 0, 0, 0, 2, 0, 0, 0, 0, 0, 0, 0, 98, 45, 116, 101, 120, 116, 0, 0] ++
    [16, 0, 0, 0, 1, 0, 0, 0, 0, 0, 0, 0, 97, 45, 116, 101, 120, 116, 0, 0]⟩

def c6State : ClientState := ⟨0, some c6Wire, false⟩

set_option maxRecDepth 10000 in
theorem C6_witness :
    ∃ bytes results,
      send_commands c6State [("a", "ca"), ("b", "cb")] =
        ({ c6State with id_seq := (c6State.id_seq + 2) % 2 ^ 31
                        rcon_socket := some
                          { c6Wire with sent := c6Wire.sent ++ bytes
                                        sendCount := c6Wire.sendCount + 2
                                        incoming := [] } },
         .ok results) ∧
      (results.map Prod.fst).Perm ["a", "b"] ∧
      List.Forall₂ (fun (p : String × String) (b : Option String) =>
        dictGet p.1 results = some (processBody (normalizeBody b)))
        [("a", "ca"), ("b", "cb")] [some "a-text", some "b-text"] :=
  C6_id_correlation [("a", "ca"), ("b", "cb")] c6State c6Wire
    [some "a-text", some "b-text"]
    [⟨2, 0, some "b-text"⟩, ⟨1, 0, some "a-text"⟩]
    rfl rfl (by decide) (by decide) (by decide) (by decide) (by decide)
    rfl (by decide) (by decide) (by decide)

/-- C3 (corrected): the shipped synchronous client keeps no busy flag and
applies no busy check: `send_commands` on a connected, non-failed client —
including a client whose transport already carries the packets of an
earlier, still unanswered batch — is never rejected with a busy error; the
guard only rejects disconnected or failed clients.  The call proceeds,
appends its packets to the transport, and completes normally when its
replies are available (the counterexample shows a concrete mid-call state
whose second invocation succeeds and writes bytes). -/
theorem C3_no_busy_rejection {κ : Type} [DecidableEq κ]
    (commands : List (κ × String)) (s : ClientState) (w : Wire)
    (bodies : List (Option String)) (resps : List RCONMessage)
    (hw : s.rcon_socket = some w)
    (hfail : s.rcon_failure = false)
    (hseq : s.id_seq < 2 ^ 31)
    (hN : commands.length ≤ 2 ^ 31)
    (hkeys : (commands.map Prod.fst).Nodup)
    (hverd : ∀ i, i < commands.length → w.sendVerdict (w.sendCount + i) = true)
    (hcmd : ∀ p ∈ commands, fixed_length + (utf8Encode p.2).length < 2 ^ 31)
    (hblen : bodies.length = commands.length)
    (hperm : resps.Perm (List.zipWith
      (fun (v : Nat) (b : Option String) =>
        RCONMessage.mk ((v : Nat) : Int) RESPONSE_VALUE b)
      (mintIds s.id_seq commands.length) bodies))
    (hbuild : ∀ r ∈ resps, build_message r = .ok (buildBytes r))
    (hwire : w.incoming = (resps.map buildBytes).flatten) :
    ∃ bytes results,
      send_commands s commands =
        ({ s with id_seq := (s.id_seq + commands.length) % 2 ^ 31
                  rcon_socket := some
                    { w with sent := w.sent ++ bytes
                             sendCount := w.sendCount + commands.length
                             incoming := [] } },
         .ok results) := by
  obtain ⟨bytes, results, heq, _, _⟩ := sendCommands_spec commands s w bodies
    resps hw hfail hseq hN hkeys hverd hcmd hblen hperm hbuild hwire
  exact ⟨bytes, results, heq⟩

/-- A client in the middle of an earlier batch: packet id 1 (command
"first") is on the transport log and still unanswered; the wire holds a
reply to id 2 only. -/
def c3Wire : Wire :=
  ⟨[15, 0, 0, 0, 1, 0, 0, 0, 2, 0, 0, 0, 102, 105, 114, 115, 116, 0, 0],
    fun _ => true, 1,
    [12, 0, 0, 0, 2, 0, 0, 0, 0, 0, 0, 0, 111, 107, 0, 0]⟩

def c3State : ClientState := ⟨1, some c3Wire, false⟩

set_option maxRecDepth 10000 in
theorem C3_witness :
    ∃ bytes results,
      send_commands c3State [("k", "cmd")] =
        ({ c3State with id_seq := (c3State.id_seq + 1) % 2 ^ 31
                        rcon_socket := some
                          { c3Wire with sent := c3Wire.sent ++ bytes
                                        sendCount := c3Wire.sendCount + 1
                                        incoming := [] } },
         .ok results) :=
  C3_no_busy_rejection [("k", "cmd")] c3State c3Wire [some "ok"]
    [⟨2, 0, some "ok"⟩]
    rfl rfl (by decide) (by decide) (by decide) (by decide) (by decide)
    rfl (by decide) (by decide) (by decide)

set_option maxRecDepth 10000 in
theorem C3_mid_call_counterexample :
    (send_commands c3State [("k", "cmd")]).2 = .ok [("k", some "ok")] ∧
    ((send_commands c3State [("k", "cmd")]).1.rcon_socket.map Wire.sent) =
      some
        ([15, 0, 0, 0, 1, 0, 0, 0, 2, 0, 0, 0, 102, 105, 114, 115, 116, 0, 0]
          ++ [13, 0, 0, 0, 2, 0, 0, 0, 2, 0, 0, 0, 99, 109, 100, 0, 0]) ∧
    ([13, 0, 0, 0, 2, 0, 0, 0, 2, 0, 0, 0, 99, 109, 100, 0, 0] :
      List Nat) ≠ [] := by
  decide

end FactorioRcon
